import Mathlib

/-!
Verification of the DCA backtesting simulator (`app.py`).

The development shallowly embeds the simulator's pure calculation
functions, its domain-logic event handlers, and the daily simulation
driver `calculate_dca_core` over exact rational arithmetic (`ℚ` stands
for Python floats); the CAGR analytic, which takes a real fractional
power, is embedded over `ℝ`.  Names follow the source.
-/

namespace DCA

/-- Constant `MARGIN_INTEREST_MARKUP = 0.005` from the source. -/
def MARGIN_INTEREST_MARKUP : ℚ := 5 / 1000

/-- Constant `MONTHS_PER_YEAR = 12` from the source. -/
def MONTHS_PER_YEAR : ℚ := 12

/-- Python idiom `x if x is not None else 0` applied to a nullable cash
balance (the source's "infinite cash" sentinel `None` becomes `Option.none`). -/
def orZero : Option ℚ → ℚ
  | none => 0
  | some c => c

/-- Python idiom `max(0, cash_balance) if cash_balance is not None else 0`
used by the equity / insolvency / margin-target primitives. -/
def safe_cash : Option ℚ → ℚ
  | none => 0
  | some c => max 0 c

/-- Source `calculate_shares_bought`: `amount / price` guarded by `price <= 0`. -/
def calculate_shares_bought (investment_amount price_per_share : ℚ) : ℚ :=
  if price_per_share ≤ 0 then 0 else investment_amount / price_per_share

/-- Source `calculate_dividend_income`. -/
def calculate_dividend_income (total_shares dividend_per_share : ℚ) : ℚ :=
  total_shares * dividend_per_share

/-- Source `calculate_monthly_interest`: one month of interest at the fed
funds rate plus the 0.5% markup. -/
def calculate_monthly_interest (borrowed_amount fed_funds_rate : ℚ) : ℚ :=
  borrowed_amount * ((fed_funds_rate + MARGIN_INTEREST_MARKUP) / MONTHS_PER_YEAR)

/-- Source `calculate_equity_ratio`: `(pv + max(0,cash) - debt) / pv`, `0` when
`pv <= 0`. -/
def calculate_equity_ratio (portfolio_value : ℚ) (cash_balance : Option ℚ)
    (debt : ℚ) : ℚ :=
  if portfolio_value ≤ 0 then 0
  else (portfolio_value + safe_cash cash_balance - debt) / portfolio_value

/-- Source `check_insolvency`: equity (with cash floored at 0) is `<= 0`. -/
def check_insolvency (portfolio_value : ℚ) (cash_balance : Option ℚ)
    (debt : ℚ) : Bool :=
  decide (portfolio_value + safe_cash cash_balance - debt ≤ 0)

/-- Source `calculate_target_portfolio_for_margin_call`:
`(debt - max(0,cash)) / (1 - maintenance_margin)`. -/
def calculate_target_portfolio_for_margin_call (borrowed_amount : ℚ)
    (cash_balance : Option ℚ) (maintenance_margin : ℚ) : ℚ :=
  (borrowed_amount - safe_cash cash_balance) / (1 - maintenance_margin)

/-- Source `calculate_shares_to_sell_for_withdrawal`: returns
`(shares_to_sell, debt_repayment, actual_withdrawal)` sized to repay all
margin debt first and then fund the requested withdrawal. -/
def calculate_shares_to_sell_for_withdrawal (withdrawal_amount margin_debt : ℚ)
    (cash_balance : Option ℚ) (current_price : ℚ) : ℚ × ℚ × ℚ :=
  let total_needed := margin_debt + withdrawal_amount
  let available_cash := max 0 (orZero cash_balance)
  let cash_from_sales_needed := max 0 (total_needed - available_cash)
  let shares_to_sell :=
    if current_price > 0 then cash_from_sales_needed / current_price else 0
  let sale_proceeds := shares_to_sell * current_price
  let total_cash := available_cash + sale_proceeds
  let debt_repayment := min total_cash margin_debt
  let remaining_cash := total_cash - debt_repayment
  let actual_withdrawal := min remaining_cash withdrawal_amount
  (shares_to_sell, debt_repayment, actual_withdrawal)

/-- Source `calculate_cagr`, over `ℝ` because of the fractional power:
`((final/initial)^(1/years) - 1) * 100` with `years = num_days/365`, and `0`
when `initial_value <= 0` or `num_days <= 0` (the source does not test
`final_value`). -/
noncomputable def calculate_cagr (initial_value final_value : ℝ)
    (num_days : ℕ) : ℝ :=
  if initial_value ≤ 0 ∨ num_days = 0 then 0
  else
    let years : ℝ := (num_days : ℝ) / 365
    if years = 0 then 0
    else ((final_value / initial_value) ^ ((1 : ℝ) / years) - 1) * 100

/-- Loop state of source `calculate_max_drawdown`: the best (most negative)
drawdown so far, the running peak value and its index, and the peak/trough
indices recorded for the best drawdown. -/
structure MDState where
  maxDrawdown : ℚ
  peakValue : ℚ
  peakIdx : ℕ
  mdPeakIdx : ℕ
  mdTroughIdx : ℕ
  deriving Repr, DecidableEq

/-- First block of source `calculate_max_drawdown`'s loop body: track the
running peak (strict improvement only). -/
def md_peak_upd (s : MDState) (i : ℕ) (value : ℚ) : MDState :=
  if value > s.peakValue then { s with peakValue := value, peakIdx := i }
  else s

/-- Second block of the loop body: when the running peak is positive,
compute the drawdown and record it when it strictly beats the best one. -/
def md_dd_upd (s1 : MDState) (i : ℕ) (value : ℚ) : MDState :=
  if s1.peakValue > 0 then
    let drawdown := (value - s1.peakValue) / s1.peakValue
    if drawdown < s1.maxDrawdown then
      { s1 with
        maxDrawdown := drawdown
        mdPeakIdx := s1.peakIdx
        mdTroughIdx := i }
    else s1
  else s1

/-- One iteration of source `calculate_max_drawdown`'s `for i, value in
enumerate(...)` loop body. -/
def md_step (s : MDState) (i : ℕ) (value : ℚ) : MDState :=
  md_dd_upd (md_peak_upd s i value) i value

/-- The enumerate loop of source `calculate_max_drawdown`, carrying the
current index. -/
def md_loop : ℕ → MDState → List ℚ → MDState
  | _, s, [] => s
  | i, s, value :: rest => md_loop (i + 1) (md_step s i value) rest

/-- Source `calculate_max_drawdown`: scan the series tracking the running
peak; return `(max_drawdown * 100, peak index, trough index)`, or `(0,0,0)`
for fewer than two points. -/
def calculate_max_drawdown (portfolio_values : List ℚ) : ℚ × ℕ × ℕ :=
  if portfolio_values.length < 2 then (0, 0, 0)
  else
    let s := md_loop 0
      ⟨0, portfolio_values.headD 0, 0, 0, 0⟩ portfolio_values
    (s.maxDrawdown * 100, s.mdPeakIdx, s.mdTroughIdx)

/-- Running peak of a series, following the spec's words "scan E tracking the
running peak": the maximum of the values at indices `0..i`. -/
def running_peak (l : List ℚ) : ℕ → ℚ
  | 0 => l.getD 0 0
  | i + 1 => max (running_peak l i) (l.getD (i + 1) 0)

/-- Drawdown of position `i` from the running peak, following the spec's
formula `(E[i] - peak)/peak`; positions whose running peak is not positive
contribute no candidate, which we record as `0` (the loop's neutral value). -/
def drawdown_at (l : List ℚ) (i : ℕ) : ℚ :=
  if running_peak l i > 0 then (l.getD i 0 - running_peak l i) / running_peak l i
  else 0

/-- Invariant of `calculate_max_drawdown`'s loop after processing indices
`0..m` of `l`: the peak fields track the running maximum and its earliest
attaining index, `maxDrawdown` is the least drawdown seen (never positive),
and the recorded peak/trough pair belongs to the earliest trough attaining
it, with the trough's running peak attained earliest at the peak index. -/
structure MDInv (l : List ℚ) (m : ℕ) (s : MDState) : Prop where
  peak_val : s.peakValue = running_peak l m
  peak_le : s.peakIdx ≤ m
  peak_get : l.getD s.peakIdx 0 = running_peak l m
  peak_first : ∀ j < s.peakIdx, l.getD j 0 < running_peak l m
  md_lb : ∀ i < m + 1, s.maxDrawdown ≤ drawdown_at l i
  md_attained : ∃ i, i < m + 1 ∧ drawdown_at l i = s.maxDrawdown
  md_nonpos : s.maxDrawdown ≤ 0
  md_neg : s.maxDrawdown < 0 →
    s.mdTroughIdx < m + 1 ∧
    drawdown_at l s.mdTroughIdx = s.maxDrawdown ∧
    (∀ j < s.mdTroughIdx, s.maxDrawdown < drawdown_at l j) ∧
    s.mdPeakIdx ≤ s.mdTroughIdx ∧
    l.getD s.mdPeakIdx 0 = running_peak l s.mdTroughIdx ∧
    (∀ j < s.mdPeakIdx, l.getD j 0 < running_peak l s.mdTroughIdx)
  md_zero : s.maxDrawdown = 0 → s.mdPeakIdx = 0 ∧ s.mdTroughIdx = 0

/-- Source `process_dividend`: returns
`(shares_added, new_cost_basis, new_balance, dividend_income)`; reinvesting
buys shares and grows the cost basis, otherwise the income is credited to a
tracked cash balance. -/
def process_dividend (total_shares dividend_per_share price : ℚ)
    (reinvest : Bool) (current_balance : Option ℚ) (total_cost_basis : ℚ) :
    ℚ × ℚ × Option ℚ × ℚ :=
  let dividend_income := calculate_dividend_income total_shares dividend_per_share
  if reinvest then
    (calculate_shares_bought dividend_income price,
      total_cost_basis + dividend_income, current_balance, dividend_income)
  else
    match current_balance with
    | some c => (0, total_cost_basis, some (c + dividend_income), dividend_income)
    | none => (0, total_cost_basis, none, dividend_income)

/-- Source `process_interest_charge`: returns
`(new_balance, new_borrowed_amount, interest_paid)`; interest is paid from
cash when it suffices, otherwise the shortfall is capitalised into debt and
the cash floor is zero. -/
def process_interest_charge (borrowed_amount fed_rate : ℚ)
    (current_balance : Option ℚ) : Option ℚ × ℚ × ℚ :=
  let interest_charge := calculate_monthly_interest borrowed_amount fed_rate
  match current_balance with
  | none => (none, borrowed_amount, interest_charge)
  | some c =>
    if c ≥ interest_charge then
      (some (max 0 (c - interest_charge)), borrowed_amount, interest_charge)
    else
      let paid_from_cash := max 0 c
      let unpaid_interest := interest_charge - paid_from_cash
      (some 0, borrowed_amount + unpaid_interest, interest_charge)

/-- The branch block of source `execute_purchase` that sizes the trade for a
tracked balance: returns `(actual_investment, cash_used, margin_borrowed)`,
capping by buying power with margin enabled and by available cash without. -/
def execute_purchase_amounts (daily_investment bal borrowed_amount
    margin_ratio total_shares price : ℚ) : ℚ × ℚ × ℚ :=
  if margin_ratio > 1 then
    if bal ≥ daily_investment then (daily_investment, daily_investment, 0)
    else
      let current_portfolio_value := total_shares * price
      let current_equity :=
        current_portfolio_value + max 0 bal - borrowed_amount
      let max_portfolio_value := current_equity * margin_ratio
      let max_investment_capacity :=
        max 0 (max_portfolio_value - current_portfolio_value)
      if daily_investment ≤ max_investment_capacity then
        (daily_investment, max 0 bal, daily_investment - max 0 bal)
      else
        (max_investment_capacity,
          min max_investment_capacity (max 0 bal),
          max_investment_capacity - min max_investment_capacity (max 0 bal))
  else
    if bal ≥ daily_investment then (daily_investment, daily_investment, 0)
    else (max 0 bal, max 0 bal, 0)

/-- Source `execute_purchase`: returns `(shares_bought, cash_used,
margin_borrowed, actual_investment, principal_used, new_balance,
new_borrowed_amount)`.  Unbounded cash funds everything; with margin the
investment is capped by the remaining buying power
`max(0, equity * margin_ratio - portfolio_value)`; without margin it is
capped by available cash. -/
def execute_purchase (daily_investment price : ℚ) (current_balance : Option ℚ)
    (borrowed_amount margin_ratio total_shares available_principal : ℚ) :
    ℚ × ℚ × ℚ × ℚ × ℚ × Option ℚ × ℚ :=
  match current_balance with
  | none =>
    let actual_investment := daily_investment
    let shares_bought := calculate_shares_bought actual_investment price
    (shares_bought, daily_investment, 0, actual_investment, daily_investment,
      none, borrowed_amount)
  | some bal =>
    let acm : ℚ × ℚ × ℚ := execute_purchase_amounts daily_investment bal
      borrowed_amount margin_ratio total_shares price
    let actual_investment := acm.1
    let cash_used := acm.2.1
    let margin_borrowed := acm.2.2
    let shares_bought :=
      if actual_investment > 0 then calculate_shares_bought actual_investment price
      else 0
    let principal_used :=
      if cash_used > 0 then min cash_used available_principal else 0
    (shares_bought, cash_used, margin_borrowed, actual_investment,
      principal_used, some (max 0 (bal - cash_used)),
      borrowed_amount + margin_borrowed)

/-- Source `execute_margin_call`: returns `(shares_remaining, new_balance,
new_borrowed_amount, margin_call_triggered)`.  Below the maintenance margin
it sells down to the target portfolio value when that is strictly between
zero and the current portfolio value, and otherwise liquidates everything;
sale proceeds pay down debt with a cash floor of zero. -/
def execute_margin_call (total_shares price borrowed_amount : ℚ)
    (current_balance : Option ℚ) (maintenance_margin : ℚ) :
    ℚ × Option ℚ × ℚ × Bool :=
  let current_portfolio_value := total_shares * price
  let equity_ratio :=
    calculate_equity_ratio current_portfolio_value current_balance borrowed_amount
  if equity_ratio ≥ maintenance_margin then
    (total_shares, current_balance, borrowed_amount, false)
  else
    let target_portfolio_value := calculate_target_portfolio_for_margin_call
      borrowed_amount current_balance maintenance_margin
    if target_portfolio_value > 0 ∧
        target_portfolio_value < current_portfolio_value then
      let value_to_sell := current_portfolio_value - target_portfolio_value
      let shares_to_sell :=
        min (calculate_shares_bought value_to_sell price) total_shares
      let sale_proceeds := shares_to_sell * price
      let new_shares := total_shares - shares_to_sell
      match current_balance with
      | none => (new_shares, none, borrowed_amount, true)
      | some c =>
        let debt_repayment := min sale_proceeds borrowed_amount
        (new_shares, some (max 0 (c + sale_proceeds - debt_repayment)),
          borrowed_amount - debt_repayment, true)
    else
      let sale_proceeds := total_shares * price
      match current_balance with
      | none => (0, none, borrowed_amount, true)
      | some c =>
        let debt_repayment := min (c + sale_proceeds) borrowed_amount
        (0, some (max 0 (c + sale_proceeds - debt_repayment)),
          borrowed_amount - debt_repayment, true)

/-- Source `execute_monthly_withdrawal`: returns `(new_shares, new_balance,
new_borrowed_amount, new_cost_basis, shares_sold, debt_repaid,
amount_withdrawn)`.  Shares sold are capped by the holding, the cost basis
shrinks proportionally, and the cash pool first repays all of the debt it
can and then funds the withdrawal. -/
def execute_monthly_withdrawal (withdrawal_amount total_shares price
    borrowed_amount : ℚ) (current_balance : Option ℚ)
    (total_cost_basis : ℚ) : ℚ × Option ℚ × ℚ × ℚ × ℚ × ℚ × ℚ :=
  let shares_to_sell := (calculate_shares_to_sell_for_withdrawal
    withdrawal_amount borrowed_amount current_balance price).1
  let shares_sold := min shares_to_sell total_shares
  let sale_proceeds := shares_sold * price
  let new_cost_basis :=
    if total_shares > 0 then
      total_cost_basis - total_cost_basis * (shares_sold / total_shares)
    else total_cost_basis
  let new_shares := total_shares - shares_sold
  let safe_balance := orZero current_balance
  let pool := safe_balance + sale_proceeds
  let actual_debt_repayment := min pool borrowed_amount
  let new_borrowed_amount := borrowed_amount - actual_debt_repayment
  let pool2 := pool - actual_debt_repayment
  let actual_withdrawal := min pool2 withdrawal_amount
  let pool3 := pool2 - actual_withdrawal
  let new_balance : Option ℚ :=
    match current_balance with
    | none => none
    | some _ => some pool3
  (new_shares, new_balance, new_borrowed_amount, new_cost_basis, shares_sold,
    actual_debt_repayment, actual_withdrawal)

/-- A calendar date of the aligned price index, as the driver consumes it:
the `YYYY-MM-DD` string determines year, month, day and (for the weekly
frequency check) the pandas day-of-week. -/
structure Date where
  year : ℕ
  month : ℕ
  day : ℕ
  dow : ℕ
  deriving Repr, DecidableEq

/-- The `strftime('%Y-%m')` month string of a date. -/
def Date.monthKey (d : Date) : ℕ × ℕ := (d.year, d.month)

/-- One row of the aligned price series: a trading date and its close. -/
structure DayData where
  date : Date
  price : ℚ
  deriving Repr, DecidableEq

/-- Investment frequency values `'DAILY' | 'WEEKLY' | 'MONTHLY'`. -/
inductive Frequency
  | DAILY
  | WEEKLY
  | MONTHLY
  deriving Repr, DecidableEq

/-- Source `should_invest_today`: returns
`(should_invest, updated_last_month)`; daily always invests, weekly matches
the start date's weekday, monthly fires on the first trading day of a new
month and updates the memo. -/
def should_invest_today (date start_date : Date) (frequency : Frequency)
    (last_investment_month : Option (ℕ × ℕ)) : Bool × Option (ℕ × ℕ) :=
  match frequency with
  | .DAILY => (true, last_investment_month)
  | .WEEKLY => (date.dow == start_date.dow, last_investment_month)
  | .MONTHLY =>
    if some date.monthKey ≠ last_investment_month then (true, some date.monthKey)
    else (false, last_investment_month)

/-- The immutable inputs of one `calculate_dca_core` run: the configuration
arguments plus the externally supplied dividend series and fed funds rate
lookup (both out-of-core collaborators, modelled as functions of the date). -/
structure SimConfig where
  start_date : Date
  amount : ℚ
  initial_amount : ℚ
  reinvest : Bool
  account_balance : Option ℚ
  margin_ratio : ℚ
  maintenance_margin : ℚ
  withdrawal_threshold : Option ℚ
  monthly_withdrawal_amount : Option ℚ
  frequency : Frequency
  dividends : Date → Option ℚ
  fed_funds_rate : Date → ℚ

/-- The before/after snapshot the driver records for a margin call. -/
structure MarginCallDetail where
  date : Date
  price : ℚ
  equity_ratio_before : ℚ
  equity_ratio_after : ℚ
  portfolio_value_before : ℚ
  portfolio_value_after : ℚ
  shares_before : ℚ
  shares_after : ℚ
  shares_sold : ℚ
  sale_proceeds : ℚ
  debt_before : ℚ
  debt_after : ℚ
  debt_paid : ℚ
  cash_before : ℚ
  cash_after : ℚ
  equity_before : ℚ
  equity_after : ℚ
  deriving Repr, DecidableEq

/-- The source's `funded_by` strings, as a tagged variant;
`partialFunding` stands for the string `'partial'`. -/
inductive FundedBy
  | dividends
  | share_sale
  | partialFunding
  deriving Repr, DecidableEq

/-- The polymorphic `withdrawal_details` records, keyed by the source's
`event_type` string, as a tagged variant. -/
inductive WithdrawalDetail
  | threshold_debt_payoff (date : Date)
      (price shares_sold sale_proceeds debt_repaid amount_withdrawn
        cumulative_withdrawn : ℚ)
  | withdrawal (date : Date)
      (requested_amount price shares_sold sale_proceeds debt_repaid
        amount_withdrawn cash_before cash_after cumulative_withdrawn : ℚ)
      (funded_by : FundedBy)
  | dividend (date : Date)
      (dividend_per_share shares_owned dividend_income cash_before cash_after
        cumulative_withdrawn : ℚ)
  deriving Repr, DecidableEq

/-- The driver's mutable simulation variables together with the per-day
output arrays it appends to (`min_equity = none` models the initial
`float('inf')`). -/
structure SimState where
  total_invested : ℚ
  total_cost_basis : ℚ
  available_principal : ℚ
  total_shares : ℚ
  cumulative_dividends : ℚ
  current_balance : Option ℚ
  borrowed_amount : ℚ
  total_interest_paid : ℚ
  margin_calls_triggered : ℕ
  margin_call_dates : List Date
  margin_call_details : List MarginCallDetail
  last_interest_month : Option (ℕ × ℕ)
  withdrawal_mode_active : Bool
  withdrawal_mode_start_date : Option Date
  total_withdrawn : ℚ
  withdrawal_dates : List Date
  withdrawal_details : List WithdrawalDetail
  last_withdrawal_month : Option (ℕ × ℕ)
  last_investment_month : Option (ℕ × ℕ)
  insolvency_detected : Bool
  insolvency_date : Option Date
  min_equity : Option ℚ
  min_equity_date : Option Date
  peak_equity : ℚ
  first_day : Bool
  dates : List Date
  invested_values : List ℚ
  portfolio_values : List ℚ
  dividend_values : List ℚ
  balance_values : List (Option ℚ)
  borrowed_values : List ℚ
  interest_values : List ℚ
  net_portfolio_values : List ℚ
  leverage_values : List ℚ
  average_cost_values : List ℚ
  withdrawal_mode_values : List Bool
  withdrawal_amount_values : List ℚ

/-- The initialisation block of `calculate_dca_core` before the daily loop. -/
def initial_state (cfg : SimConfig) : SimState where
  total_invested := 0
  total_cost_basis := 0
  available_principal := orZero cfg.account_balance
  total_shares := 0
  cumulative_dividends := 0
  current_balance := cfg.account_balance
  borrowed_amount := 0
  total_interest_paid := 0
  margin_calls_triggered := 0
  margin_call_dates := []
  margin_call_details := []
  last_interest_month := none
  withdrawal_mode_active := false
  withdrawal_mode_start_date := none
  total_withdrawn := 0
  withdrawal_dates := []
  withdrawal_details := []
  last_withdrawal_month := none
  last_investment_month := none
  insolvency_detected := false
  insolvency_date := none
  min_equity := none
  min_equity_date := none
  peak_equity := 0
  first_day := true
  dates := []
  invested_values := []
  portfolio_values := []
  dividend_values := []
  balance_values := []
  borrowed_values := []
  interest_values := []
  net_portfolio_values := []
  leverage_values := []
  average_cost_values := []
  withdrawal_mode_values := []
  withdrawal_amount_values := []

/-- Daily step 1: the margin-call check, guarded by
`margin_ratio > 1 and borrowed_amount > 0 and total_shares > 0`, with the
before/after event record when a call triggers. -/
def step_margin_call (cfg : SimConfig) (st : SimState) (d : DayData) : SimState :=
  if cfg.margin_ratio > 1 ∧ st.borrowed_amount > 0 ∧ st.total_shares > 0 then
    let portfolio_value_before := st.total_shares * d.price
    let cash_before := orZero st.current_balance
    let equity_before := portfolio_value_before + cash_before - st.borrowed_amount
    let equity_ratio_before := calculate_equity_ratio portfolio_value_before
      st.current_balance st.borrowed_amount
    let r := execute_margin_call st.total_shares d.price st.borrowed_amount
      st.current_balance cfg.maintenance_margin
    let st1 := { st with
      total_shares := r.1
      current_balance := r.2.1
      borrowed_amount := r.2.2.1 }
    if r.2.2.2 then
      let portfolio_value_after := r.1 * d.price
      let cash_after := orZero r.2.1
      let equity_after := portfolio_value_after + cash_after - r.2.2.1
      { st1 with
        margin_calls_triggered := st.margin_calls_triggered + 1
        margin_call_dates := st.margin_call_dates ++ [d.date]
        margin_call_details := st.margin_call_details ++ [{
          date := d.date
          price := d.price
          equity_ratio_before := equity_ratio_before
          equity_ratio_after := calculate_equity_ratio portfolio_value_after
            r.2.1 r.2.2.1
          portfolio_value_before := portfolio_value_before
          portfolio_value_after := portfolio_value_after
          shares_before := st.total_shares
          shares_after := r.1
          shares_sold := st.total_shares - r.1
          sale_proceeds := (st.total_shares - r.1) * d.price
          debt_before := st.borrowed_amount
          debt_after := r.2.2.1
          debt_paid := st.borrowed_amount - r.2.2.1
          cash_before := cash_before
          cash_after := cash_after
          equity_before := equity_before
          equity_after := equity_after }] }
    else st1
  else st

/-- The final-row block of daily step 2: when the insolvency probe fires the
driver records the date's metrics once, marks the account insolvent, and the
loop terminates. -/
def record_insolvency (st : SimState) (d : DayData) : SimState :=
  let current_value := st.total_shares * d.price
  let current_equity := current_value + orZero st.current_balance - st.borrowed_amount
  let current_leverage_ratio :=
    if current_equity > 0 then current_value / current_equity else 1
  let avg_cost :=
    if st.total_shares > 0 then st.total_cost_basis / st.total_shares else 0
  let new_min :=
    match st.min_equity with
    | none => true
    | some m => decide (current_equity < m)
  { st with
    insolvency_detected := true
    insolvency_date := some d.date
    dates := st.dates ++ [d.date]
    invested_values := st.invested_values ++ [st.total_invested]
    portfolio_values := st.portfolio_values ++ [current_value]
    dividend_values := st.dividend_values ++ [st.cumulative_dividends]
    balance_values := st.balance_values ++ [st.current_balance]
    borrowed_values := st.borrowed_values ++ [st.borrowed_amount]
    interest_values := st.interest_values ++ [st.total_interest_paid]
    net_portfolio_values :=
      st.net_portfolio_values ++ [current_value - st.borrowed_amount]
    leverage_values := st.leverage_values ++ [current_leverage_ratio]
    min_equity := if new_min then some current_equity else st.min_equity
    min_equity_date := if new_min then some d.date else st.min_equity_date
    peak_equity :=
      if current_equity > st.peak_equity then current_equity else st.peak_equity
    average_cost_values := st.average_cost_values ++ [avg_cost]
    withdrawal_mode_values :=
      st.withdrawal_mode_values ++ [st.withdrawal_mode_active]
    withdrawal_amount_values :=
      st.withdrawal_amount_values ++ [st.total_withdrawn] }

/-- Daily step 3: the withdrawal-threshold check; on the first day the net
value reaches the threshold, any outstanding debt is repaid through
`execute_monthly_withdrawal` with amount `0` (recording a
`threshold_debt_payoff` event when debt was repaid) and withdrawal mode
activates one-way. -/
def step_withdrawal_threshold (cfg : SimConfig) (st : SimState)
    (d : DayData) : SimState :=
  if st.withdrawal_mode_active then st
  else
    match cfg.withdrawal_threshold with
    | none => st
    | some threshold =>
      let current_net_value :=
        st.total_shares * d.price + orZero st.current_balance - st.borrowed_amount
      if current_net_value ≥ threshold then
        let st1 :=
          if st.borrowed_amount > 0 then
            let r := execute_monthly_withdrawal 0 st.total_shares d.price
              st.borrowed_amount st.current_balance st.total_cost_basis
            let st' := { st with
              total_shares := r.1
              current_balance := r.2.1
              borrowed_amount := r.2.2.1
              total_cost_basis := r.2.2.2.1 }
            if r.2.2.2.2.2.1 > 0 then
              { st' with withdrawal_details := st.withdrawal_details ++
                  [.threshold_debt_payoff d.date d.price r.2.2.2.2.1
                    (r.2.2.2.2.1 * d.price) r.2.2.2.2.2.1 0 st.total_withdrawn] }
            else st'
          else st
        { st1 with
          withdrawal_mode_active := true
          withdrawal_mode_start_date := some d.date }
      else st

/-- Daily step 4: the monthly withdrawal, executed on the first trading day
of each new month while withdrawal mode is active and a positive monthly
amount is configured. -/
def step_monthly_withdrawal (cfg : SimConfig) (st : SimState)
    (d : DayData) : SimState :=
  match cfg.monthly_withdrawal_amount with
  | none => st
  | some w =>
    if st.withdrawal_mode_active ∧ w > 0 then
      if some d.date.monthKey ≠ st.last_withdrawal_month then
        let cash_before_withdrawal := orZero st.current_balance
        let r := execute_monthly_withdrawal w st.total_shares d.price
          st.borrowed_amount st.current_balance st.total_cost_basis
        let shares_sold := r.2.2.2.2.1
        let amount_withdrawn := r.2.2.2.2.2.2
        let tw := st.total_withdrawn + amount_withdrawn
        let funded_by :=
          if shares_sold = 0 ∧ amount_withdrawn > 0 then FundedBy.dividends
          else if shares_sold > 0 then FundedBy.share_sale
          else FundedBy.partialFunding
        { st with
          total_shares := r.1
          current_balance := r.2.1
          borrowed_amount := r.2.2.1
          total_cost_basis := r.2.2.2.1
          total_withdrawn := tw
          withdrawal_dates := st.withdrawal_dates ++ [d.date]
          withdrawal_details := st.withdrawal_details ++
            [.withdrawal d.date w d.price shares_sold (shares_sold * d.price)
              r.2.2.2.2.2.1 amount_withdrawn cash_before_withdrawal
              (orZero r.2.1) tw funded_by]
          last_withdrawal_month := some d.date.monthKey }
      else st
    else st

/-- Daily step 5: the dividend, with the effective reinvest flag disabled in
withdrawal mode and a `dividend` event recorded during withdrawal mode. -/
def step_dividend (cfg : SimConfig) (st : SimState) (d : DayData) : SimState :=
  let effective_reinvest := cfg.reinvest && !st.withdrawal_mode_active
  match cfg.dividends d.date with
  | none => st
  | some dv =>
    if dv ≠ 0 then
      let cash_before_dividend := st.current_balance
      let r := process_dividend st.total_shares dv d.price effective_reinvest
        st.current_balance st.total_cost_basis
      let ts := st.total_shares + r.1
      let st1 := { st with
        total_shares := ts
        total_cost_basis := r.2.1
        current_balance := r.2.2.1
        cumulative_dividends := st.cumulative_dividends + r.2.2.2 }
      if st.withdrawal_mode_active ∧ r.2.2.2 > 0 then
        { st1 with withdrawal_details := st.withdrawal_details ++
            [.dividend d.date dv (ts - r.1) r.2.2.2
              (orZero cash_before_dividend) (orZero r.2.2.1)
              st.total_withdrawn] }
      else st1
    else st

/-- Daily step 6: the monthly interest charge.  The first iteration
initialises `last_interest_month` (charging once when the run starts with
debt); later iterations charge on each month boundary while debt is
outstanding. -/
def step_interest (cfg : SimConfig) (st : SimState) (d : DayData) : SimState :=
  let mk := d.date.monthKey
  let st1 :=
    if st.last_interest_month = none then
      let st' := { st with last_interest_month := some mk }
      if st.borrowed_amount > 0 then
        let r := process_interest_charge st.borrowed_amount
          (cfg.fed_funds_rate d.date) st.current_balance
        { st' with
          current_balance := r.1
          borrowed_amount := r.2.1
          total_interest_paid := st.total_interest_paid + r.2.2 }
      else st'
    else st
  if some mk ≠ st1.last_interest_month ∧ st1.borrowed_amount > 0 then
    let r := process_interest_charge st1.borrowed_amount
      (cfg.fed_funds_rate d.date) st1.current_balance
    { st1 with
      current_balance := r.1
      borrowed_amount := r.2.1
      total_interest_paid := st1.total_interest_paid + r.2.2
      last_interest_month := some mk }
  else st1

/-- The purchase/update block of daily step 7, taking the frequency memo and
the day's computed investment amount: run `execute_purchase` and, when an
investment happened, update shares, cost basis, principal and
total-invested. -/
def step_purchase_exec (cfg : SimConfig) (st : SimState) (d : DayData)
    (lim : Option (ℕ × ℕ)) (daily_investment : ℚ) : SimState :=
  let r := execute_purchase daily_investment d.price st.current_balance
    st.borrowed_amount cfg.margin_ratio st.total_shares st.available_principal
  let st1 := { st with
    last_investment_month := lim
    first_day := false
    current_balance := r.2.2.2.2.2.1
    borrowed_amount := r.2.2.2.2.2.2 }
  if r.2.2.2.1 > 0 then
    let st2 := { st1 with
      total_shares := st.total_shares + r.1
      total_cost_basis := st.total_cost_basis + r.2.2.2.1 }
    match cfg.account_balance with
    | none => { st2 with total_invested := st.total_invested + r.2.1 }
    | some _ => { st2 with
        available_principal := max 0 (st.available_principal - r.2.2.2.2.1)
        total_invested := st.total_invested + r.2.2.2.2.1 }
  else st1

/-- Daily step 7: the scheduled purchase, skipped in withdrawal mode (which
still clears the first-day flag).  The first day always invests and adds the
initial amount; the frequency selector gates later days. -/
def step_purchase (cfg : SimConfig) (st : SimState) (d : DayData) : SimState :=
  if st.withdrawal_mode_active then { st with first_day := false }
  else
    let si := should_invest_today d.date cfg.start_date cfg.frequency
      st.last_investment_month
    let daily0 : ℚ := if si.1 || st.first_day then cfg.amount else 0
    let daily_investment :=
      if st.first_day then daily0 + cfg.initial_amount else daily0
    step_purchase_exec cfg st d si.2 daily_investment

/-- The end-of-day snapshot block: append the date's metrics to every
per-day output array and update the min/peak equity trackers. -/
def record_day (st : SimState) (d : DayData) : SimState :=
  let current_value := st.total_shares * d.price
  let current_equity := current_value + orZero st.current_balance - st.borrowed_amount
  let current_leverage_ratio :=
    if current_equity > 0 then current_value / current_equity else 1
  let avg_cost :=
    if st.total_shares > 0 then st.total_cost_basis / st.total_shares else 0
  let new_min :=
    match st.min_equity with
    | none => true
    | some m => decide (current_equity < m)
  { st with
    dates := st.dates ++ [d.date]
    invested_values := st.invested_values ++ [st.total_invested]
    portfolio_values := st.portfolio_values ++ [current_value]
    dividend_values := st.dividend_values ++ [st.cumulative_dividends]
    balance_values := st.balance_values ++ [st.current_balance]
    borrowed_values := st.borrowed_values ++ [st.borrowed_amount]
    interest_values := st.interest_values ++ [st.total_interest_paid]
    net_portfolio_values :=
      st.net_portfolio_values ++ [current_value - st.borrowed_amount]
    leverage_values := st.leverage_values ++ [current_leverage_ratio]
    min_equity := if new_min then some current_equity else st.min_equity
    min_equity_date := if new_min then some d.date else st.min_equity_date
    peak_equity :=
      if current_equity > st.peak_equity then current_equity else st.peak_equity
    average_cost_values := st.average_cost_values ++ [avg_cost]
    withdrawal_mode_values :=
      st.withdrawal_mode_values ++ [st.withdrawal_mode_active]
    withdrawal_amount_values :=
      st.withdrawal_amount_values ++ [st.total_withdrawn] }

/-- One trading day of the driver's loop: margin call, insolvency probe
(terminal when it fires), withdrawal threshold, monthly withdrawal,
dividend, interest, purchase, snapshot. -/
def step_day (cfg : SimConfig) (st : SimState) (d : DayData) : SimState :=
  let st1 := step_margin_call cfg st d
  if st1.first_day = false ∧
      check_insolvency (st1.total_shares * d.price) st1.current_balance
        st1.borrowed_amount = true then
    record_insolvency st1 d
  else
    record_day
      (step_purchase cfg
        (step_interest cfg
          (step_dividend cfg
            (step_monthly_withdrawal cfg
              (step_withdrawal_threshold cfg st1 d) d) d) d) d) d

/-- The `for date, row in hist.iterrows()` loop: run the days in order,
terminating as soon as a day detects insolvency (`break`). -/
def run_days (cfg : SimConfig) : SimState → List DayData → SimState
  | st, [] => st
  | st, d :: rest =>
    let st' := step_day cfg st d
    if st'.insolvency_detected then st' else run_days cfg st' rest

/-- The daily-loop portion of source `calculate_dca_core`: initialise the
state from the configuration and run the aligned price series. -/
def calculate_dca_core (cfg : SimConfig) (days : List DayData) : SimState :=
  run_days cfg (initial_state cfg) days

structure ValidConfig (cfg : SimConfig) : Prop where
  amount_nonneg : 0 ≤ cfg.amount
  initial_nonneg : 0 ≤ cfg.initial_amount
  balance_nonneg : ∀ b, cfg.account_balance = some b → 0 ≤ b
  withdrawal_nonneg : ∀ w, cfg.monthly_withdrawal_amount = some w → 0 ≤ w
  dividends_nonneg : ∀ dt v, cfg.dividends dt = some v → 0 ≤ v

def ValidDays (days : List DayData) : Prop := ∀ d ∈ days, 0 ≤ d.price

structure StateInv (cfg : SimConfig) (st : SimState) : Prop where
  shares_nonneg : 0 ≤ st.total_shares
  debt_nonneg : 0 ≤ st.borrowed_amount
  balance_mode : st.current_balance = none ↔ cfg.account_balance = none
  balance_nonneg : ∀ c, st.current_balance = some c → 0 ≤ c
  balances_ok : ∀ v ∈ st.balance_values,
    (v = none ↔ cfg.account_balance = none) ∧ ∀ c, v = some c → 0 ≤ c

structure NoMarginInv (st : SimState) : Prop where
  debt_zero : st.borrowed_amount = 0
  interest_zero : st.total_interest_paid = 0
  calls_zero : st.margin_calls_triggered = 0
  borrowed_all : ∀ x ∈ st.borrowed_values, x = 0
  interest_all : ∀ x ∈ st.interest_values, x = 0

/-- Concrete configuration for witness runs: finite cash `0`, margin `2x`,
no thresholds. -/
def wCfg : SimConfig where
  start_date := ⟨2020, 1, 1, 2⟩
  amount := 0
  initial_amount := 0
  reinvest := false
  account_balance := some 0
  margin_ratio := 2
  maintenance_margin := 1 / 4
  withdrawal_threshold := none
  monthly_withdrawal_amount := none
  frequency := .DAILY
  dividends := fun _ => none
  fed_funds_rate := fun _ => 1 / 20

/-- The witness configuration with margin disabled. -/
def wCfgNoMargin : SimConfig := { wCfg with margin_ratio := 1 }

/-- The witness configuration with a withdrawal threshold of `10`. -/
def wCfgThresh : SimConfig := { wCfg with withdrawal_threshold := some 10 }

/-- A concrete trading day at price `1`. -/
def wDay : DayData := ⟨⟨2020, 1, 2, 3⟩, 1⟩

/-- A concrete second trading day. -/
def wDay2 : DayData := ⟨⟨2020, 1, 3, 4⟩, 1⟩

/-- A mid-run state with no shares and debt `5`: insolvent at any price. -/
def wStInsolvent : SimState :=
  { initial_state wCfg with first_day := false, borrowed_amount := 5 }

/-- A mid-run state holding `20` shares against debt `5`. -/
def wStThresh : SimState :=
  { initial_state wCfgThresh with total_shares := 20, borrowed_amount := 5 }

/-!  Theorems.  -/

theorem getD_le_running_peak (l : List ℚ) :
    ∀ i j, j ≤ i → l.getD j 0 ≤ running_peak l i := by
  intro i
  induction i with
  | zero =>
    intro j hj
    have : j = 0 := Nat.le_zero.1 hj
    subst this
    exact le_of_eq rfl
  | succ i ih =>
    intro j hj
    rcases Nat.eq_or_lt_of_le hj with h | h
    · subst h
      show l.getD (i + 1) 0 ≤ max (running_peak l i) (l.getD (i + 1) 0)
      exact le_max_right _ _
    · exact le_trans (ih j (Nat.lt_succ_iff.1 h))
        (le_max_left _ _)

theorem drawdown_at_nonpos (l : List ℚ) (i : ℕ) : drawdown_at l i ≤ 0 := by
  unfold drawdown_at
  split
  · rename_i h
    apply div_nonpos_of_nonpos_of_nonneg
    · have := getD_le_running_peak l i i le_rfl
      linarith
    · linarith
  · exact le_refl 0

theorem drawdown_at_succ (l : List ℚ) (m : ℕ) :
    drawdown_at l (m + 1) =
      if running_peak l (m + 1) > 0 then
        (l.getD (m + 1) 0 - running_peak l (m + 1)) / running_peak l (m + 1)
      else 0 := rfl

theorem md_step_inv (l : List ℚ) (m : ℕ) (s : MDState) (h : MDInv l m s) :
    MDInv l (m + 1) (md_step s (m + 1) (l.getD (m + 1) 0)) := by
  obtain ⟨hpv, hple, hpget, hpfirst, hlb, hatt, hnp, hneg, hzero⟩ := h
  set v := l.getD (m + 1) 0 with hvdef
  have hrp : running_peak l (m + 1) = max (running_peak l m) v := rfl
  -- the peak-update block
  have hpeak : (md_peak_upd s (m + 1) v).peakValue = running_peak l (m + 1) ∧
      (md_peak_upd s (m + 1) v).peakIdx ≤ m + 1 ∧
      l.getD (md_peak_upd s (m + 1) v).peakIdx 0 = running_peak l (m + 1) ∧
      (∀ j < (md_peak_upd s (m + 1) v).peakIdx,
        l.getD j 0 < running_peak l (m + 1)) ∧
      (md_peak_upd s (m + 1) v).maxDrawdown = s.maxDrawdown ∧
      (md_peak_upd s (m + 1) v).mdPeakIdx = s.mdPeakIdx ∧
      (md_peak_upd s (m + 1) v).mdTroughIdx = s.mdTroughIdx := by
    unfold md_peak_upd
    by_cases hv : v > s.peakValue
    · rw [if_pos hv]
      have hmax : running_peak l (m + 1) = v := by
        rw [hrp, max_eq_right (le_of_lt (hpv ▸ hv))]
      refine ⟨hmax.symm, le_refl _, hmax.symm, ?_, rfl, rfl, rfl⟩
      intro j hj
      rw [hmax]
      calc l.getD j 0 ≤ running_peak l m :=
            getD_le_running_peak l m j (Nat.lt_succ_iff.1 hj)
        _ < v := hpv ▸ hv
    · rw [if_neg hv]
      have hmax : running_peak l (m + 1) = running_peak l m := by
        rw [hrp, max_eq_left]
        rw [← hpv]
        exact not_lt.1 hv
      exact ⟨by rw [hmax, hpv], le_trans hple (Nat.le_succ m),
        by rw [hmax]; exact hpget, by rw [hmax]; exact hpfirst, rfl, rfl, rfl⟩
  obtain ⟨h1, h2, h3, h4, h5, h6, h7⟩ := hpeak
  set s1 := md_peak_upd s (m + 1) v with hs1
  unfold md_step md_dd_upd
  rw [← hs1]
  by_cases hpos : s1.peakValue > 0
  · rw [if_pos hpos]
    show MDInv l (m + 1)
      (if (v - s1.peakValue) / s1.peakValue < s1.maxDrawdown then
        { s1 with
          maxDrawdown := (v - s1.peakValue) / s1.peakValue
          mdPeakIdx := s1.peakIdx
          mdTroughIdx := m + 1 }
      else s1)
    have hddm1 : drawdown_at l (m + 1) = (v - s1.peakValue) / s1.peakValue := by
      rw [drawdown_at_succ, if_pos (h1 ▸ hpos), ← hvdef, h1]
    by_cases hupd : (v - s1.peakValue) / s1.peakValue < s1.maxDrawdown
    · rw [if_pos hupd]
      have hnewlt : (v - s1.peakValue) / s1.peakValue < s.maxDrawdown := by
        rw [← h5]; exact hupd
      refine ⟨h1, h2, h3, h4, ?_, ?_, ?_, ?_, ?_⟩
      · intro i hi
        rcases Nat.lt_succ_iff_lt_or_eq.1 hi with hi' | hi'
        · exact le_trans (le_of_lt hnewlt) (hlb i hi')
        · subst hi'
          rw [hddm1]
      · exact ⟨m + 1, Nat.lt_succ_self _, hddm1⟩
      · exact le_trans (le_of_lt hnewlt) hnp
      · intro _
        refine ⟨Nat.lt_succ_self _, hddm1, ?_, h2, h3, h4⟩
        intro j hj
        exact lt_of_lt_of_le hnewlt (hlb j hj)
      · intro habs
        exfalso
        dsimp only at habs
        have : (v - s1.peakValue) / s1.peakValue < 0 := lt_of_lt_of_le hnewlt hnp
        rw [habs] at this
        exact lt_irrefl 0 this
    · rw [if_neg hupd]
      refine ⟨h1, h2, h3, h4, ?_, ?_, by rw [h5]; exact hnp, ?_, ?_⟩
      · intro i hi
        rcases Nat.lt_succ_iff_lt_or_eq.1 hi with hi' | hi'
        · rw [h5]; exact hlb i hi'
        · subst hi'
          rw [hddm1, h5]
          rw [h5] at hupd
          exact not_lt.1 hupd
      · obtain ⟨i, hi, hieq⟩ := hatt
        exact ⟨i, Nat.lt_succ_of_lt hi, by rw [h5]; exact hieq⟩
      · intro hlt
        rw [h5] at hlt
        obtain ⟨ht1, ht2, ht3, ht4, ht5, ht6⟩ := hneg hlt
        rw [h5, h6, h7]
        exact ⟨Nat.lt_succ_of_lt ht1, ht2, ht3, ht4, ht5, ht6⟩
      · intro hz
        rw [h5] at hz
        rw [h6, h7]
        exact hzero hz
  · rw [if_neg hpos]
    have hddm1 : drawdown_at l (m + 1) = 0 := by
      rw [drawdown_at_succ, if_neg (h1 ▸ hpos)]
    refine ⟨h1, h2, h3, h4, ?_, ?_, by rw [h5]; exact hnp, ?_, ?_⟩
    · intro i hi
      rcases Nat.lt_succ_iff_lt_or_eq.1 hi with hi' | hi'
      · rw [h5]; exact hlb i hi'
      · subst hi'
        rw [hddm1, h5]
        exact hnp
    · obtain ⟨i, hi, hieq⟩ := hatt
      exact ⟨i, Nat.lt_succ_of_lt hi, by rw [h5]; exact hieq⟩
    · intro hlt
      rw [h5] at hlt
      obtain ⟨ht1, ht2, ht3, ht4, ht5, ht6⟩ := hneg hlt
      rw [h5, h6, h7]
      exact ⟨Nat.lt_succ_of_lt ht1, ht2, ht3, ht4, ht5, ht6⟩
    · intro hz
      rw [h5] at hz
      rw [h6, h7]
      exact hzero hz


theorem drawdown_at_zero (l : List ℚ) : drawdown_at l 0 = 0 := by
  unfold drawdown_at
  have : running_peak l 0 = l.getD 0 0 := rfl
  split
  · rw [this, sub_self, zero_div]
  · rfl

theorem md_loop_base (l : List ℚ) :
    MDInv l 0 (md_step ⟨0, l.getD 0 0, 0, 0, 0⟩ 0 (l.getD 0 0)) := by
  have hstep : md_step ⟨0, l.getD 0 0, 0, 0, 0⟩ 0 (l.getD 0 0) =
      ⟨0, l.getD 0 0, 0, 0, 0⟩ := by
    unfold md_step md_peak_upd md_dd_upd
    rw [if_neg (lt_irrefl _)]
    split
    · rw [sub_self, zero_div, if_neg (lt_irrefl _)]
    · rfl
  rw [hstep]
  refine ⟨rfl, le_refl _, rfl, ?_, ?_, ⟨0, Nat.one_pos, drawdown_at_zero l⟩,
    le_refl _, ?_, fun _ => ⟨rfl, rfl⟩⟩
  · intro j hj
    exact absurd hj (Nat.not_lt_zero j)
  · intro i hi
    have : i = 0 := Nat.lt_one_iff.1 hi
    subst this
    rw [drawdown_at_zero l]
  · intro hlt
    exact absurd hlt (lt_irrefl 0)

theorem md_loop_inv (l : List ℚ) :
    ∀ (rest : List ℚ) (m : ℕ) (s : MDState),
      l.drop (m + 1) = rest → MDInv l m s →
      MDInv l (m + rest.length) (md_loop (m + 1) s rest) := by
  intro rest
  induction rest with
  | nil =>
    intro m s _ h
    simpa using h
  | cons v rest ih =>
    intro m s hdrop h
    have hv : l.getD (m + 1) 0 = v := by
      have h0 : l[m + 1]? = some v := by
        have hd := List.getElem?_drop l (m + 1) 0
        rw [hdrop] at hd
        simpa using hd.symm
      simp [List.getD_eq_getElem?_getD, h0]
    have hdrop2 : l.drop (m + 1 + 1) = rest := by
      have hd : l.drop (m + 1 + 1) = (l.drop (m + 1)).drop 1 := by
        rw [List.drop_drop]
      rw [hd, hdrop]
      rfl
    have hstep := md_step_inv l m s h
    rw [hv] at hstep
    have hrec := ih (m + 1) (md_step s (m + 1) v) hdrop2 hstep
    show MDInv l (m + (rest.length + 1)) (md_loop (m + 1 + 1) (md_step s (m + 1) v) rest)
    have harith : m + (rest.length + 1) = (m + 1) + rest.length := by omega
    rw [harith]
    exact hrec

theorem calculate_max_drawdown_inv (l : List ℚ) (h2 : 2 ≤ l.length) :
    ∃ s : MDState, MDInv l (l.length - 1) s ∧
      calculate_max_drawdown l =
        (s.maxDrawdown * 100, s.mdPeakIdx, s.mdTroughIdx) := by
  obtain ⟨v0, tail, rfl⟩ : ∃ v0 tail, l = v0 :: tail := by
    cases l with
    | nil => simp at h2
    | cons a t => exact ⟨a, t, rfl⟩
  have hget0 : (v0 :: tail).getD 0 0 = v0 := rfl
  have hhead : (v0 :: tail).headD 0 = v0 := rfl
  have hbase := md_loop_base (v0 :: tail)
  rw [hget0] at hbase
  have hdrop1 : (v0 :: tail).drop (0 + 1) = tail := rfl
  have hloop := md_loop_inv (v0 :: tail) tail 0
    (md_step ⟨0, v0, 0, 0, 0⟩ 0 v0) hdrop1 hbase
  have hlen : (0 : ℕ) + tail.length = (v0 :: tail).length - 1 := by
    simp
  rw [hlen] at hloop
  refine ⟨_, hloop, ?_⟩
  unfold calculate_max_drawdown
  rw [if_neg (not_lt.2 h2), hhead]
  rfl


theorem claim_C4_max_drawdown_scan (l : List ℚ) (h2 : 2 ≤ l.length) :
    (calculate_max_drawdown l).1 ≤ 0 ∧
    (∀ i < l.length, (calculate_max_drawdown l).1 ≤ drawdown_at l i * 100) ∧
    (∃ i, i < l.length ∧ drawdown_at l i * 100 = (calculate_max_drawdown l).1) ∧
    ((calculate_max_drawdown l).1 < 0 →
      (calculate_max_drawdown l).2.2 < l.length ∧
      drawdown_at l (calculate_max_drawdown l).2.2 * 100 =
        (calculate_max_drawdown l).1 ∧
      (∀ j < (calculate_max_drawdown l).2.2,
        (calculate_max_drawdown l).1 < drawdown_at l j * 100) ∧
      (calculate_max_drawdown l).2.1 ≤ (calculate_max_drawdown l).2.2 ∧
      l.getD (calculate_max_drawdown l).2.1 0 =
        running_peak l (calculate_max_drawdown l).2.2 ∧
      (∀ j < (calculate_max_drawdown l).2.1,
        l.getD j 0 < running_peak l (calculate_max_drawdown l).2.2)) ∧
    ((calculate_max_drawdown l).1 = 0 →
      (calculate_max_drawdown l).2.1 = 0 ∧ (calculate_max_drawdown l).2.2 = 0) := by
  obtain ⟨s, hinv, heq⟩ := calculate_max_drawdown_inv l h2
  obtain ⟨hpv, hple, hpget, hpfirst, hlb, hatt, hnp, hneg, hzero⟩ := hinv
  have hm1 : l.length - 1 + 1 = l.length := by omega
  rw [hm1] at hlb hatt hneg
  rw [heq]
  simp only
  refine ⟨?_, ?_, ?_, ?_, ?_⟩
  · nlinarith
  · intro i hi
    have := hlb i hi
    nlinarith
  · obtain ⟨i, hi, hieq⟩ := hatt
    exact ⟨i, hi, by rw [hieq]⟩
  · intro hlt
    have hmd : s.maxDrawdown < 0 := by nlinarith
    obtain ⟨ht1, ht2, ht3, ht4, ht5, ht6⟩ := hneg hmd
    refine ⟨ht1, by rw [ht2], ?_, ht4, ht5, ht6⟩
    intro j hj
    have := ht3 j hj
    nlinarith
  · intro hz
    have hmd : s.maxDrawdown = 0 := by
      rcases mul_eq_zero.1 hz with h | h
      · exact h
      · norm_num at h
    exact hzero hmd

theorem claim_C4_counterexample :
    calculate_max_drawdown [1, 0, 1, 0] = (-100, 0, 1) ∧
    drawdown_at [1, 0, 1, 0] 3 * 100 = -100 ∧ (1 : ℕ) < 3 := by
  refine ⟨?_, ?_, by norm_num⟩
  · norm_num [calculate_max_drawdown, md_loop, md_step, md_peak_upd, md_dd_upd]
  · norm_num [drawdown_at, running_peak]

theorem claim_C4_witness :
    2 ≤ ([4, 2] : List ℚ).length ∧ (calculate_max_drawdown [4, 2]).1 ≤ 0 := by
  exact ⟨by norm_num, (claim_C4_max_drawdown_scan [4, 2] (by norm_num)).1⟩


theorem safe_cash_nonneg (cash : Option ℚ) : 0 ≤ safe_cash cash := by
  cases cash with
  | none => exact le_refl 0
  | some c => exact le_max_left 0 c

theorem execute_margin_call_not_triggered (shares p debt mm : ℚ)
    (cash : Option ℚ)
    (hge : mm ≤ calculate_equity_ratio (shares * p) cash debt) :
    execute_margin_call shares p debt cash mm =
      (shares, cash, debt, false) := by
  simp only [execute_margin_call]
  rw [if_pos hge]

theorem ratio_lt_of_triggered (shares p debt mm : ℚ) (cash : Option ℚ)
    (h : (execute_margin_call shares p debt cash mm).2.2.2 = true) :
    calculate_equity_ratio (shares * p) cash debt < mm := by
  by_contra hge
  push_neg at hge
  rw [execute_margin_call_not_triggered shares p debt mm cash hge] at h
  simp at h

/-- With a triggered call (`equity_ratio < maintenance_margin < 1`), the
liquidation target is never strictly between `0` and the portfolio value, so
the source's partial-sale branch cannot run. -/
theorem margin_call_target_total (shares p debt mm : ℚ)
    (cash : Option ℚ) (hm1 : mm < 1)
    (hlt : calculate_equity_ratio (shares * p) cash debt < mm) :
    ¬ (calculate_target_portfolio_for_margin_call debt cash mm > 0 ∧
        calculate_target_portfolio_for_margin_call debt cash mm < shares * p) := by
  rintro ⟨h1, h2⟩
  by_cases hpv : shares * p ≤ 0
  · exact absurd (lt_of_lt_of_le h2 hpv) (not_lt.2 (le_of_lt h1))
  · push_neg at hpv
    have hratio : (shares * p + safe_cash cash - debt) / (shares * p) < mm := by
      unfold calculate_equity_ratio at hlt
      rwa [if_neg (not_le.2 hpv)] at hlt
    have h3 : shares * p + safe_cash cash - debt < mm * (shares * p) :=
      (div_lt_iff₀ hpv).1 hratio
    have h4 : shares * p < (debt - safe_cash cash) / (1 - mm) :=
      (lt_div_iff₀ (by linarith)).2 (by nlinarith)
    unfold calculate_target_portfolio_for_margin_call at h2
    linarith

/-- Shape of a triggered margin call: total liquidation, with proceeds plus
cash paying down the debt in finite-cash mode. -/
theorem execute_margin_call_triggered_eq (shares p debt mm : ℚ)
    (cash : Option ℚ) (hm1 : mm < 1)
    (hlt : calculate_equity_ratio (shares * p) cash debt < mm) :
    execute_margin_call shares p debt cash mm =
      match cash with
      | none => (0, none, debt, true)
      | some c =>
        (0, some (max 0 (c + shares * p - min (c + shares * p) debt)),
          debt - min (c + shares * p) debt, true) := by
  simp only [execute_margin_call]
  rw [if_neg (not_le.2 hlt),
    if_neg (margin_call_target_total shares p debt mm cash hm1 hlt)]
  cases cash with
  | none => rfl
  | some c => rfl

/-- C10.  For every `withdrawal_amount >= 0`, `margin_debt >= 0`,
`price > 0` and any nullable cash balance,
`calculate_shares_to_sell_for_withdrawal` returns `debt_repayment` exactly
equal to the margin debt and `actual_withdrawal` exactly equal to the
requested amount: with a positive price the sale is always sized to cover
both in full. -/
theorem claim_C10_withdrawal_split_covers_all (w d p : ℚ) (cash : Option ℚ)
    (hw : 0 ≤ w) (hd : 0 ≤ d) (hp : 0 < p) :
    (calculate_shares_to_sell_for_withdrawal w d cash p).2.1 = d ∧
    (calculate_shares_to_sell_for_withdrawal w d cash p).2.2 = w := by
  have hcancel : max 0 (d + w - max 0 (orZero cash)) / p * p
      = max 0 (d + w - max 0 (orZero cash)) :=
    div_mul_cancel₀ _ (ne_of_gt hp)
  set a := max 0 (orZero cash) with ha
  have htc : a + max 0 (d + w - a) = max a (d + w) := by
    rcases le_total (d + w) a with h | h
    · rw [max_eq_left h, max_eq_left (by linarith)]; ring
    · rw [max_eq_right h, max_eq_right (by linarith)]; ring
  have hge : d + w ≤ max a (d + w) := le_max_right _ _
  simp only [calculate_shares_to_sell_for_withdrawal, if_pos hp, hcancel, htc]
  have h1 : min (max a (d + w)) d = d := min_eq_right (by linarith)
  refine ⟨h1, ?_⟩
  rw [h1]
  exact min_eq_right (by linarith)

/-- Witness for C10 at `withdrawal_amount = 50`, `margin_debt = 100`,
`cash = 20`, `price = 10`. -/
theorem claim_C10_witness :
    (0 : ℚ) ≤ 50 ∧ (0 : ℚ) ≤ 100 ∧ (0 : ℚ) < 10 ∧
    (calculate_shares_to_sell_for_withdrawal 50 100 (some 20) 10).2.1 = 100 ∧
    (calculate_shares_to_sell_for_withdrawal 50 100 (some 20) 10).2.2 = 50 := by
  refine ⟨by norm_num, by norm_num, by norm_num, ?_⟩
  exact claim_C10_withdrawal_split_covers_all 50 100 10 (some 20)
    (by norm_num) (by norm_num) (by norm_num)

/-- C9.  Whenever `execute_margin_call` triggers (equity ratio below the
maintenance margin, with `0 < maintenance_margin < 1` and a valid state),
it returns `new_shares = 0`, and in finite-cash mode
`new_debt = max 0 (debt - (cash + shares * price))`: the partial-sale branch
is unreachable and liquidation is always total. -/
theorem claim_C9_margin_call_total_liquidation (shares p debt mm : ℚ)
    (cash : Option ℚ) (hs : 0 ≤ shares) (hp : 0 ≤ p) (hd : 0 ≤ debt)
    (hm0 : 0 < mm) (hm1 : mm < 1)
    (hcash : cash = none ∨ ∃ c, cash = some c ∧ 0 ≤ c)
    (hlt : calculate_equity_ratio (shares * p) cash debt < mm) :
    (execute_margin_call shares p debt cash mm).1 = 0 ∧
    (execute_margin_call shares p debt cash mm).2.2.2 = true ∧
    ∀ c, cash = some c →
      (execute_margin_call shares p debt cash mm).2.2.1 =
        max 0 (debt - (c + shares * p)) := by
  rw [execute_margin_call_triggered_eq shares p debt mm cash hm1 hlt]
  have hmaxmin : ∀ x : ℚ, debt - min x debt = max 0 (debt - x) := by
    intro x
    rcases le_total x debt with h | h
    · rw [min_eq_left h, max_eq_right (by linarith)]
    · rw [min_eq_right h, max_eq_left (by linarith)]; ring
  cases cash with
  | none => exact ⟨rfl, rfl, fun c hc => by simp at hc⟩
  | some c =>
    refine ⟨rfl, rfl, fun c' hc' => ?_⟩
    have : c' = c := by injection hc' with h; exact h.symm
    subst this
    exact hmaxmin (c' + shares * p)

/-- Witness for C9 at `shares = 100`, `price = 1`, `debt = 90`,
`cash = 0`, `maintenance_margin = 1/4`: equity ratio `10/100 < 1/4`. -/
theorem claim_C9_witness :
    calculate_equity_ratio ((100 : ℚ) * 1) (some 0) 90 < 1 / 4 ∧
    (execute_margin_call 100 1 90 (some 0) (1 / 4)).1 = 0 ∧
    (execute_margin_call 100 1 90 (some 0) (1 / 4)).2.2.1 =
      max 0 (90 - (0 + (100 : ℚ) * 1)) := by
  have hlt : calculate_equity_ratio ((100 : ℚ) * 1) (some 0) 90 < 1 / 4 := by
    norm_num [calculate_equity_ratio, safe_cash]
  have h := claim_C9_margin_call_total_liquidation 100 1 90 (1 / 4) (some 0)
    (by norm_num) (by norm_num) (by norm_num) (by norm_num) (by norm_num)
    (Or.inr ⟨0, rfl, le_refl 0⟩) hlt
  exact ⟨hlt, h.1, h.2.2 0 rfl⟩

/-- C2.  Whenever the margin-call handler performs a forced liquidation
(`triggered = true`) from a reachable state, the state it returns satisfies:
the equity ratio is at least the maintenance margin, or all shares are gone
(the source in fact always reaches `shares = 0`). -/
theorem claim_C2_post_liquidation_ratio_or_empty (shares p debt mm : ℚ)
    (cash : Option ℚ) (hm0 : 0 < mm) (hm1 : mm < 1) (hs : 0 ≤ shares)
    (hd : 0 ≤ debt) (hp : 0 ≤ p)
    (hcash : cash = none ∨ ∃ c, cash = some c ∧ 0 ≤ c)
    (htrig : (execute_margin_call shares p debt cash mm).2.2.2 = true) :
    mm ≤ calculate_equity_ratio
        ((execute_margin_call shares p debt cash mm).1 * p)
        (execute_margin_call shares p debt cash mm).2.1
        (execute_margin_call shares p debt cash mm).2.2.1 ∨
    (execute_margin_call shares p debt cash mm).1 = 0 := by
  have hlt := ratio_lt_of_triggered shares p debt mm cash htrig
  exact Or.inr (claim_C9_margin_call_total_liquidation shares p debt mm cash
    hs hp hd hm0 hm1 hcash hlt).1

/-- Witness for C2 at the same triggered call as the C9 witness. -/
theorem claim_C2_witness :
    (execute_margin_call 100 1 90 (some 0) (1 / 4)).2.2.2 = true ∧
    ((1 : ℚ) / 4 ≤ calculate_equity_ratio
        ((execute_margin_call 100 1 90 (some 0) (1 / 4)).1 * 1)
        (execute_margin_call 100 1 90 (some 0) (1 / 4)).2.1
        (execute_margin_call 100 1 90 (some 0) (1 / 4)).2.2.1 ∨
      (execute_margin_call 100 1 90 (some 0) (1 / 4)).1 = 0) := by
  have hlt : calculate_equity_ratio ((100 : ℚ) * 1) (some 0) 90 < 1 / 4 := by
    norm_num [calculate_equity_ratio, safe_cash]
  have htrig : (execute_margin_call 100 1 90 (some 0) (1 / 4)).2.2.2 = true := by
    rw [execute_margin_call_triggered_eq 100 1 90 (1 / 4) (some 0)
      (by norm_num) hlt]
  exact ⟨htrig, claim_C2_post_liquidation_ratio_or_empty 100 1 90 (1 / 4)
    (some 0) (by norm_num) (by norm_num) (by norm_num) (by norm_num)
    (by norm_num) (Or.inr ⟨0, rfl, le_refl 0⟩) htrig⟩

/-- C3 (amended).  `calculate_cagr` equals
`100 * ((final / initial) ^ (365 / num_days) - 1)` whenever
`total_invested > 0` and `num_days > 0` — with no test on the final value —
and equals `0` exactly when `total_invested <= 0` or `num_days = 0`. -/
theorem claim_C3_cagr_formula (i f : ℝ) (n : ℕ) :
    (0 < i → 0 < n →
      calculate_cagr i f n = ((f / i) ^ ((365 : ℝ) / n) - 1) * 100) ∧
    (i ≤ 0 ∨ n = 0 → calculate_cagr i f n = 0) := by
  constructor
  · intro hi hn
    have hn365 : ((n : ℝ) / 365) ≠ 0 := by
      have : (n : ℝ) ≠ 0 := Nat.cast_ne_zero.2 (Nat.pos_iff_ne_zero.1 hn)
      positivity
    have hcond : ¬ (i ≤ 0 ∨ n = 0) := by
      push_neg
      exact ⟨hi, Nat.pos_iff_ne_zero.1 hn⟩
    simp only [calculate_cagr, if_neg hcond, if_neg hn365]
    rw [one_div_div]
  · intro h
    simp only [calculate_cagr, if_pos h]

/-- Counterexample to C3 as stated: with `total_invested = 100`,
`E[last] = 0` and `num_days = 365`, the source computes
`(0/100)^1 - 1 = -1` and returns `-100`, not the claimed `0`. -/
theorem claim_C3_counterexample :
    calculate_cagr 100 0 365 = -100 ∧ ¬ calculate_cagr 100 0 365 = 0 := by
  have h365 : ((365 : ℕ) : ℝ) / 365 = 1 := by norm_num
  have hcond : ¬ ((100 : ℝ) ≤ 0 ∨ (365 : ℕ) = 0) := by norm_num
  have hval : calculate_cagr 100 0 365 = -100 := by
    simp only [calculate_cagr, if_neg hcond, h365, one_ne_zero, if_neg,
      div_one]
    rw [zero_div, Real.rpow_one]
    norm_num
  exact ⟨hval, by rw [hval]; norm_num⟩

/-- Witness for C3 at `total_invested = 100`, `E[last] = 200`,
`num_days = 365`. -/
theorem claim_C3_witness :
    (0 : ℝ) < 100 ∧ 0 < 365 ∧
    calculate_cagr 100 200 365 =
      (((200 : ℝ) / 100) ^ ((365 : ℝ) / (365 : ℕ)) - 1) * 100 := by
  exact ⟨by norm_num, by norm_num,
    (claim_C3_cagr_formula 100 200 365).1 (by norm_num) (by norm_num)⟩

theorem step_margin_call_wmv (cfg : SimConfig) (st : SimState) (d : DayData) :
    (step_margin_call cfg st d).withdrawal_mode_values = st.withdrawal_mode_values ∧
    (step_margin_call cfg st d).withdrawal_mode_active = st.withdrawal_mode_active ∧
    (step_margin_call cfg st d).first_day = st.first_day ∧
    (step_margin_call cfg st d).dates = st.dates ∧
    (step_margin_call cfg st d).invested_values = st.invested_values ∧
    (step_margin_call cfg st d).portfolio_values = st.portfolio_values ∧
    (step_margin_call cfg st d).dividend_values = st.dividend_values ∧
    (step_margin_call cfg st d).balance_values = st.balance_values ∧
    (step_margin_call cfg st d).borrowed_values = st.borrowed_values ∧
    (step_margin_call cfg st d).interest_values = st.interest_values ∧
    (step_margin_call cfg st d).net_portfolio_values = st.net_portfolio_values ∧
    (step_margin_call cfg st d).leverage_values = st.leverage_values ∧
    (step_margin_call cfg st d).average_cost_values = st.average_cost_values ∧
    (step_margin_call cfg st d).withdrawal_amount_values = st.withdrawal_amount_values ∧
    (step_margin_call cfg st d).withdrawal_dates = st.withdrawal_dates ∧
    (step_margin_call cfg st d).withdrawal_details = st.withdrawal_details ∧
    (step_margin_call cfg st d).total_invested = st.total_invested ∧
    (step_margin_call cfg st d).total_withdrawn = st.total_withdrawn ∧
    (step_margin_call cfg st d).insolvency_detected = st.insolvency_detected := by
  unfold step_margin_call
  dsimp only
  repeat' split
  all_goals exact ⟨rfl, rfl, rfl, rfl, rfl, rfl, rfl, rfl, rfl, rfl, rfl, rfl,
    rfl, rfl, rfl, rfl, rfl, rfl, rfl⟩

theorem step_withdrawal_threshold_wmv (cfg : SimConfig) (st : SimState)
    (d : DayData) :
    (step_withdrawal_threshold cfg st d).withdrawal_mode_values =
      st.withdrawal_mode_values ∧
    (st.withdrawal_mode_active = true →
      (step_withdrawal_threshold cfg st d).withdrawal_mode_active = true) := by
  unfold step_withdrawal_threshold
  dsimp only
  repeat' split
  all_goals refine ⟨rfl, fun h => ?_⟩
  all_goals first | rfl | exact h

theorem step_monthly_withdrawal_wmv (cfg : SimConfig) (st : SimState)
    (d : DayData) :
    (step_monthly_withdrawal cfg st d).withdrawal_mode_values =
      st.withdrawal_mode_values ∧
    (step_monthly_withdrawal cfg st d).withdrawal_mode_active =
      st.withdrawal_mode_active := by
  unfold step_monthly_withdrawal
  dsimp only
  repeat' split
  all_goals exact ⟨rfl, rfl⟩

theorem step_dividend_wmv (cfg : SimConfig) (st : SimState) (d : DayData) :
    (step_dividend cfg st d).withdrawal_mode_values =
      st.withdrawal_mode_values ∧
    (step_dividend cfg st d).withdrawal_mode_active =
      st.withdrawal_mode_active := by
  unfold step_dividend
  dsimp only
  repeat' split
  all_goals exact ⟨rfl, rfl⟩

theorem step_interest_wmv (cfg : SimConfig) (st : SimState) (d : DayData) :
    (step_interest cfg st d).withdrawal_mode_values =
      st.withdrawal_mode_values ∧
    (step_interest cfg st d).withdrawal_mode_active =
      st.withdrawal_mode_active := by
  unfold step_interest
  dsimp only
  repeat' split
  all_goals exact ⟨rfl, rfl⟩

theorem step_purchase_wmv (cfg : SimConfig) (st : SimState) (d : DayData) :
    (step_purchase cfg st d).withdrawal_mode_values =
      st.withdrawal_mode_values ∧
    (step_purchase cfg st d).withdrawal_mode_active =
      st.withdrawal_mode_active := by
  unfold step_purchase step_purchase_exec
  dsimp only
  repeat' split
  all_goals exact ⟨rfl, rfl⟩

theorem record_day_wmv (st : SimState) (d : DayData) :
    (record_day st d).withdrawal_mode_values =
      st.withdrawal_mode_values ++ [st.withdrawal_mode_active] ∧
    (record_day st d).withdrawal_mode_active = st.withdrawal_mode_active := by
  unfold record_day
  exact ⟨rfl, rfl⟩

theorem record_insolvency_wmv (st : SimState) (d : DayData) :
    (record_insolvency st d).withdrawal_mode_values =
      st.withdrawal_mode_values ++ [st.withdrawal_mode_active] ∧
    (record_insolvency st d).withdrawal_mode_active =
      st.withdrawal_mode_active := by
  unfold record_insolvency
  exact ⟨rfl, rfl⟩

theorem step_day_wm (cfg : SimConfig) (st : SimState) (d : DayData) :
    ∃ a : Bool,
      (step_day cfg st d).withdrawal_mode_values =
        st.withdrawal_mode_values ++ [a] ∧
      (step_day cfg st d).withdrawal_mode_active = a ∧
      (st.withdrawal_mode_active = true → a = true) := by
  unfold step_day
  dsimp only
  split
  · obtain ⟨hv, ha, -⟩ := step_margin_call_wmv cfg st d
    obtain ⟨hrv, hra⟩ := record_insolvency_wmv (step_margin_call cfg st d) d
    exact ⟨st.withdrawal_mode_active, by rw [hrv, hv, ha], by rw [hra, ha],
      fun h => h⟩
  · obtain ⟨hv1, ha1, -⟩ := step_margin_call_wmv cfg st d
    obtain ⟨hv3, ha3⟩ :=
      step_withdrawal_threshold_wmv cfg (step_margin_call cfg st d) d
    set st3 := step_withdrawal_threshold cfg (step_margin_call cfg st d) d
    obtain ⟨hv4, ha4⟩ := step_monthly_withdrawal_wmv cfg st3 d
    set st4 := step_monthly_withdrawal cfg st3 d
    obtain ⟨hv5, ha5⟩ := step_dividend_wmv cfg st4 d
    set st5 := step_dividend cfg st4 d
    obtain ⟨hv6, ha6⟩ := step_interest_wmv cfg st5 d
    set st6 := step_interest cfg st5 d
    obtain ⟨hv7, ha7⟩ := step_purchase_wmv cfg st6 d
    set st7 := step_purchase cfg st6 d
    obtain ⟨hrv, hra⟩ := record_day_wmv st7 d
    refine ⟨st7.withdrawal_mode_active, ?_, ?_, ?_⟩
    · rw [hrv, hv7, hv6, hv5, hv4, hv3, hv1]
    · rw [hra]
    · intro h
      rw [ha7, ha6, ha5, ha4]
      exact ha3 (by rw [ha1]; exact h)

theorem run_days_wm_mono (cfg : SimConfig) :
    ∀ (days : List DayData) (st : SimState),
      st.withdrawal_mode_values.Pairwise (fun a b => a = true → b = true) →
      (∀ b ∈ st.withdrawal_mode_values, b = true →
        st.withdrawal_mode_active = true) →
      (run_days cfg st days).withdrawal_mode_values.Pairwise
        (fun a b => a = true → b = true) := by
  intro days
  induction days with
  | nil =>
    intro st h1 _
    exact h1
  | cons d rest ih =>
    intro st h1 h2
    obtain ⟨a, hv, ha, hmono⟩ := step_day_wm cfg st d
    have h1' : (step_day cfg st d).withdrawal_mode_values.Pairwise
        (fun a b => a = true → b = true) := by
      rw [hv]
      rw [List.pairwise_append]
      refine ⟨h1, List.pairwise_singleton _ _, ?_⟩
      intro x hx y hy hxt
      have : y = a := List.mem_singleton.1 hy
      subst this
      exact hmono (h2 x hx hxt)
    have h2' : ∀ b ∈ (step_day cfg st d).withdrawal_mode_values, b = true →
        (step_day cfg st d).withdrawal_mode_active = true := by
      rw [hv, ha]
      intro b hb hbt
      rcases List.mem_append.1 hb with h | h
      · exact hmono (h2 b h hbt)
      · have : b = a := List.mem_singleton.1 h
        subst this
        exact hbt
    show (run_days cfg st (d :: rest)).withdrawal_mode_values.Pairwise _
    unfold run_days
    dsimp only
    split
    · exact h1'
    · exact ih (step_day cfg st d) h1' h2'

/-- C6.  The `withdrawal_mode` output array of every run is monotone
non-decreasing: once a day records `true`, every later day records `true`
(the driver never resets the one-way flag). -/
theorem claim_C6_withdrawal_mode_monotone (cfg : SimConfig)
    (days : List DayData) :
    (calculate_dca_core cfg days).withdrawal_mode_values.Pairwise
      (fun a b => a = true → b = true) := by
  unfold calculate_dca_core
  apply run_days_wm_mono cfg days
  · exact List.Pairwise.nil
  · intro b hb
    exact absurd hb (List.not_mem_nil b)


theorem record_insolvency_facts (st : SimState) (d : DayData) :
    (record_insolvency st d).insolvency_detected = true ∧
    (record_insolvency st d).insolvency_date = some d.date ∧
    (record_insolvency st d).dates = st.dates ++ [d.date] ∧
    (record_insolvency st d).invested_values =
      st.invested_values ++ [st.total_invested] ∧
    (record_insolvency st d).portfolio_values =
      st.portfolio_values ++ [st.total_shares * d.price] ∧
    (record_insolvency st d).dividend_values =
      st.dividend_values ++ [st.cumulative_dividends] ∧
    (record_insolvency st d).balance_values =
      st.balance_values ++ [st.current_balance] ∧
    (record_insolvency st d).borrowed_values =
      st.borrowed_values ++ [st.borrowed_amount] ∧
    (record_insolvency st d).interest_values =
      st.interest_values ++ [st.total_interest_paid] ∧
    (record_insolvency st d).net_portfolio_values =
      st.net_portfolio_values ++ [st.total_shares * d.price - st.borrowed_amount] ∧
    (∃ v, (record_insolvency st d).leverage_values =
      st.leverage_values ++ [v]) ∧
    (∃ v, (record_insolvency st d).average_cost_values =
      st.average_cost_values ++ [v]) ∧
    (record_insolvency st d).withdrawal_mode_values =
      st.withdrawal_mode_values ++ [st.withdrawal_mode_active] ∧
    (record_insolvency st d).withdrawal_amount_values =
      st.withdrawal_amount_values ++ [st.total_withdrawn] ∧
    (record_insolvency st d).withdrawal_details = st.withdrawal_details ∧
    (record_insolvency st d).withdrawal_dates = st.withdrawal_dates := by
  unfold record_insolvency
  exact ⟨rfl, rfl, rfl, rfl, rfl, rfl, rfl, rfl, rfl, rfl, ⟨_, rfl⟩, ⟨_, rfl⟩,
    rfl, rfl, rfl, rfl⟩

/-- C1.  If on a day after the first the equity computed after the
margin-call step is non-positive (`check_insolvency` fires), the driver
marks the run insolvent with that day's date, appends exactly one final row
to every per-day output array, records nothing for the day's remaining
events, and produces no rows for any later day: the run equals the run that
stops at this day. -/
theorem claim_C1_insolvency_terminates (cfg : SimConfig) (st : SimState)
    (d : DayData) (rest : List DayData)
    (hfd : st.first_day = false)
    (hins : check_insolvency
      ((step_margin_call cfg st d).total_shares * d.price)
      (step_margin_call cfg st d).current_balance
      (step_margin_call cfg st d).borrowed_amount = true) :
    run_days cfg st (d :: rest) = run_days cfg st [d] ∧
    (run_days cfg st (d :: rest)).insolvency_detected = true ∧
    (run_days cfg st (d :: rest)).insolvency_date = some d.date ∧
    (run_days cfg st (d :: rest)).dates = st.dates ++ [d.date] ∧
    (∃ v, (run_days cfg st (d :: rest)).invested_values =
      st.invested_values ++ [v]) ∧
    (∃ v, (run_days cfg st (d :: rest)).portfolio_values =
      st.portfolio_values ++ [v]) ∧
    (∃ v, (run_days cfg st (d :: rest)).dividend_values =
      st.dividend_values ++ [v]) ∧
    (∃ v, (run_days cfg st (d :: rest)).balance_values =
      st.balance_values ++ [v]) ∧
    (∃ v, (run_days cfg st (d :: rest)).borrowed_values =
      st.borrowed_values ++ [v]) ∧
    (∃ v, (run_days cfg st (d :: rest)).interest_values =
      st.interest_values ++ [v]) ∧
    (∃ v, (run_days cfg st (d :: rest)).net_portfolio_values =
      st.net_portfolio_values ++ [v]) ∧
    (∃ v, (run_days cfg st (d :: rest)).leverage_values =
      st.leverage_values ++ [v]) ∧
    (∃ v, (run_days cfg st (d :: rest)).average_cost_values =
      st.average_cost_values ++ [v]) ∧
    (∃ v, (run_days cfg st (d :: rest)).withdrawal_mode_values =
      st.withdrawal_mode_values ++ [v]) ∧
    (∃ v, (run_days cfg st (d :: rest)).withdrawal_amount_values =
      st.withdrawal_amount_values ++ [v]) ∧
    (run_days cfg st (d :: rest)).withdrawal_details =
      st.withdrawal_details ∧
    (run_days cfg st (d :: rest)).withdrawal_dates = st.withdrawal_dates := by
  obtain ⟨pw, pa, pfd, pdates, pinv, pport, pdiv, pbal, pbor, pint, pnet,
    plev, pavg, pwav, pwdates, pwdetails, ptinv, ptw, pidet⟩ :=
    step_margin_call_wmv cfg st d
  have hsd : step_day cfg st d =
      record_insolvency (step_margin_call cfg st d) d := by
    unfold step_day
    dsimp only
    rw [if_pos ⟨by rw [pfd]; exact hfd, hins⟩]
  have hfacts := record_insolvency_facts (step_margin_call cfg st d) d
  have hdet : (record_insolvency (step_margin_call cfg st d) d).insolvency_detected
      = true := hfacts.1
  have hstop : ∀ rest' : List DayData,
      run_days cfg st (d :: rest') =
        record_insolvency (step_margin_call cfg st d) d := by
    intro rest'
    rw [show run_days cfg st (d :: rest') =
      if (step_day cfg st d).insolvency_detected = true then step_day cfg st d
      else run_days cfg (step_day cfg st d) rest' from rfl]
    rw [hsd, if_pos hdet]
  obtain ⟨f1, f2, f3, f4, f5, f6, f7, f8, f9, f10, f11, f12, f13, f14, f15,
    f16⟩ := hfacts
  rw [hstop rest, hstop []]
  refine ⟨rfl, f1, f2, ?_, ?_, ?_, ?_, ?_, ?_, ?_, ?_, ?_, ?_, ?_, ?_, ?_, ?_⟩
  · rw [f3, pdates]
  · exact ⟨_, by rw [f4, pinv]⟩
  · exact ⟨_, by rw [f5, pport]⟩
  · exact ⟨_, by rw [f6, pdiv]⟩
  · exact ⟨_, by rw [f7, pbal]⟩
  · exact ⟨_, by rw [f8, pbor]⟩
  · exact ⟨_, by rw [f9, pint]⟩
  · exact ⟨_, by rw [f10, pnet]⟩
  · obtain ⟨v, hv⟩ := f11
    exact ⟨v, by rw [hv, plev]⟩
  · obtain ⟨v, hv⟩ := f12
    exact ⟨v, by rw [hv, pavg]⟩
  · exact ⟨_, by rw [f13, pw]⟩
  · exact ⟨_, by rw [f14, pwav]⟩
  · rw [f15, pwdetails]
  · rw [f16, pwdates]


theorem execute_monthly_withdrawal_payoff (shares p debt : ℚ)
    (cash : Option ℚ) (cb : ℚ) (hdebt : 0 < debt) (hp : 0 ≤ p)
    (hs : 0 ≤ shares)
    (hcash : cash = none ∨ ∃ c, cash = some c ∧ 0 ≤ c)
    (hcover : debt ≤ shares * p + orZero cash) :
    (execute_monthly_withdrawal 0 shares p debt cash cb).2.2.1 = 0 ∧
    (execute_monthly_withdrawal 0 shares p debt cash cb).2.2.2.2.2.1 = debt := by
  have hoc : 0 ≤ orZero cash := by
    rcases hcash with h | ⟨c, hc, hc0⟩
    · rw [h]; exact le_refl 0
    · rw [hc]; exact hc0
  have ha : max 0 (orZero cash) = orZero cash := max_eq_right hoc
  have hpool : ∀ proceeds : ℚ, max 0 (debt - orZero cash) = proceeds →
      min (orZero cash + proceeds) debt = debt := by
    intro proceeds hpr
    rw [← hpr]
    rcases le_total debt (orZero cash) with h | h
    · rw [max_eq_left (by linarith)]
      exact min_eq_right (by linarith)
    · rw [max_eq_right (by linarith)]
      exact min_eq_right (by linarith)
  unfold execute_monthly_withdrawal calculate_shares_to_sell_for_withdrawal
  dsimp only
  rw [ha]
  by_cases hp0 : p > 0
  · rw [if_pos hp0]
    have hsell : max 0 (debt + 0 - orZero cash) / p ≤ shares := by
      rw [div_le_iff₀ hp0]
      rcases le_total (debt + 0) (orZero cash) with h | h
      · rw [max_eq_left (by linarith)]
        exact mul_nonneg hs (le_of_lt hp0)
      · rw [max_eq_right (by linarith)]
        linarith
    rw [min_eq_left hsell]
    have hproc : max 0 (debt + 0 - orZero cash) / p * p =
        max 0 (debt + 0 - orZero cash) := div_mul_cancel₀ _ (ne_of_gt hp0)
    rw [hproc]
    have hrepay : min (orZero cash + max 0 (debt + 0 - orZero cash)) debt
        = debt := by
      have := hpool (max 0 (debt - orZero cash)) rfl
      simpa using this
    rw [hrepay]
    exact ⟨by ring, rfl⟩
  · rw [if_neg hp0]
    have hpz : p = 0 := le_antisymm (not_lt.1 hp0) hp
    have hproc : min 0 shares * p = 0 := by rw [hpz, mul_zero]
    rw [hproc]
    have hcov0 : debt ≤ orZero cash := by
      rw [hpz] at hcover
      simpa using hcover
    have hrepay : min (orZero cash + 0) debt = debt := by
      rw [add_zero]
      exact min_eq_right hcov0
    rw [hrepay]
    exact ⟨by ring, rfl⟩

/-- C7.  On the first day a configured non-negative withdrawal threshold is
met while debt is outstanding, step 3 invokes the withdrawal handler with
amount `0`: immediately afterwards the debt is exactly `0`, withdrawal mode
is active from this date, and the recorded `threshold_debt_payoff` event
carries `amount_withdrawn = 0` and `debt_repaid` equal to the debt
outstanding just before the event. -/
theorem claim_C7_threshold_debt_payoff (cfg : SimConfig) (st : SimState)
    (d : DayData) (threshold : ℚ)
    (hactive : st.withdrawal_mode_active = false)
    (hthr : cfg.withdrawal_threshold = some threshold)
    (hthr0 : 0 ≤ threshold)
    (hdebt : 0 < st.borrowed_amount)
    (hp : 0 ≤ d.price)
    (hs : 0 ≤ st.total_shares)
    (hcash : st.current_balance = none ∨
      ∃ c, st.current_balance = some c ∧ 0 ≤ c)
    (hmet : threshold ≤ st.total_shares * d.price +
      orZero st.current_balance - st.borrowed_amount) :
    (step_withdrawal_threshold cfg st d).borrowed_amount = 0 ∧
    (step_withdrawal_threshold cfg st d).withdrawal_mode_active = true ∧
    (step_withdrawal_threshold cfg st d).withdrawal_mode_start_date =
      some d.date ∧
    ∃ ss, (step_withdrawal_threshold cfg st d).withdrawal_details =
      st.withdrawal_details ++ [WithdrawalDetail.threshold_debt_payoff d.date
        d.price ss (ss * d.price) st.borrowed_amount 0 st.total_withdrawn] := by
  have hcover : st.borrowed_amount ≤ st.total_shares * d.price +
      orZero st.current_balance := by linarith
  obtain ⟨hz, hrep⟩ := execute_monthly_withdrawal_payoff st.total_shares
    d.price st.borrowed_amount st.current_balance st.total_cost_basis hdebt
    hp hs hcash hcover
  unfold step_withdrawal_threshold
  dsimp only
  rw [if_neg (by rw [hactive]; exact Bool.false_ne_true), hthr]
  dsimp only
  rw [if_pos hmet, if_pos hdebt, hrep, if_pos hdebt]
  exact ⟨hz, rfl, rfl, ⟨_, rfl⟩⟩


theorem calculate_shares_bought_nonneg (amount p : ℚ) (h : 0 ≤ amount) :
    0 ≤ calculate_shares_bought amount p := by
  unfold calculate_shares_bought
  split
  · exact le_refl 0
  · rename_i hp
    exact div_nonneg h (le_of_lt (not_le.1 hp))

theorem execute_purchase_amounts_inv (amt bal debt mr sh p : ℚ)
    (hamt : 0 ≤ amt) :
    0 ≤ (execute_purchase_amounts amt bal debt mr sh p).1 ∧
    0 ≤ (execute_purchase_amounts amt bal debt mr sh p).2.2 := by
  unfold execute_purchase_amounts
  dsimp only
  split
  · split
    · exact ⟨hamt, le_refl 0⟩
    · rename_i hbal
      split
      · dsimp only
        have hble : max 0 bal ≤ amt := max_le hamt (le_of_lt (not_le.1 hbal))
        exact ⟨hamt, by linarith⟩
      · dsimp only
        refine ⟨le_max_left _ _, ?_⟩
        have := min_le_left (max 0 ((sh * p + max 0 bal - debt) * mr - sh * p))
          (max 0 bal)
        linarith
  · split
    · exact ⟨hamt, le_refl 0⟩
    · exact ⟨le_max_left _ _, le_refl 0⟩

theorem execute_purchase_inv (amt p : ℚ) (cash : Option ℚ)
    (debt mr sh ap : ℚ) (hamt : 0 ≤ amt) (hd : 0 ≤ debt) :
    ((execute_purchase amt p cash debt mr sh ap).2.2.2.2.2.1 = none ↔
      cash = none) ∧
    (∀ c, (execute_purchase amt p cash debt mr sh ap).2.2.2.2.2.1 = some c →
      0 ≤ c) ∧
    0 ≤ (execute_purchase amt p cash debt mr sh ap).1 ∧
    0 ≤ (execute_purchase amt p cash debt mr sh ap).2.2.2.2.2.2 := by
  unfold execute_purchase
  cases cash with
  | none =>
    exact ⟨by simp, by simp, calculate_shares_bought_nonneg _ _ hamt, hd⟩
  | some bal =>
    obtain ⟨ha1, ha2⟩ := execute_purchase_amounts_inv amt bal debt mr sh p hamt
    dsimp only
    refine ⟨by simp, ?_, ?_, ?_⟩
    · intro c hc
      simp only [Option.some.injEq] at hc
      rw [← hc]
      exact le_max_left _ _
    · split
      · rename_i hpos
        exact calculate_shares_bought_nonneg _ _ (le_of_lt hpos)
      · exact le_refl 0
    · linarith

theorem process_interest_charge_inv (debt rate : ℚ) (cash : Option ℚ)
    (hd : 0 ≤ debt) (hc : ∀ c, cash = some c → 0 ≤ c) :
    ((process_interest_charge debt rate cash).1 = none ↔ cash = none) ∧
    (∀ c, (process_interest_charge debt rate cash).1 = some c → 0 ≤ c) ∧
    0 ≤ (process_interest_charge debt rate cash).2.1 := by
  unfold process_interest_charge
  cases cash with
  | none => exact ⟨by simp, by simp, hd⟩
  | some c =>
    have hc0 : 0 ≤ c := hc c rfl
    dsimp only
    split
    · refine ⟨by simp, ?_, hd⟩
      intro c' hc'
      simp only [Option.some.injEq] at hc'
      rw [← hc']
      exact le_max_left _ _
    · rename_i hlt
      refine ⟨by simp, ?_, ?_⟩
      · intro c' hc'
        simp only [Option.some.injEq] at hc'
        rw [← hc']
      · dsimp only
        have hmax : max 0 c = c := max_eq_right hc0
        rw [hmax]
        have hlt' : c < calculate_monthly_interest debt rate := not_le.1 hlt
        linarith

theorem execute_margin_call_inv (sh p debt mm : ℚ) (cash : Option ℚ)
    (hs : 0 ≤ sh) (hd : 0 ≤ debt) (hc : ∀ c, cash = some c → 0 ≤ c) :
    ((execute_margin_call sh p debt cash mm).2.1 = none ↔ cash = none) ∧
    (∀ c, (execute_margin_call sh p debt cash mm).2.1 = some c → 0 ≤ c) ∧
    0 ≤ (execute_margin_call sh p debt cash mm).1 ∧
    0 ≤ (execute_margin_call sh p debt cash mm).2.2.1 := by
  cases cash with
  | none =>
    unfold execute_margin_call
    dsimp only
    split
    · exact ⟨by simp, by simp, hs, hd⟩
    · split
      · dsimp only
        exact ⟨by simp, by simp, sub_nonneg.2 (min_le_right _ _), hd⟩
      · exact ⟨by simp, by simp, le_refl 0, hd⟩
  | some c =>
    have hc0 : 0 ≤ c := hc c rfl
    unfold execute_margin_call
    dsimp only
    split
    · exact ⟨by simp, hc, hs, hd⟩
    · split
      · dsimp only
        refine ⟨by simp, ?_, sub_nonneg.2 (min_le_right _ _),
          sub_nonneg.2 (min_le_right _ _)⟩
        intro c' hc'
        simp only [Option.some.injEq] at hc'
        rw [← hc']
        exact le_max_left _ _
      · dsimp only
        refine ⟨by simp, ?_, le_refl 0, sub_nonneg.2 (min_le_right _ _)⟩
        intro c' hc'
        simp only [Option.some.injEq] at hc'
        rw [← hc']
        exact le_max_left _ _

theorem execute_monthly_withdrawal_inv (w sh p debt : ℚ) (cash : Option ℚ)
    (cb : ℚ) (hw : 0 ≤ w) (hs : 0 ≤ sh) (hp : 0 ≤ p) (hd : 0 ≤ debt)
    (hc : ∀ c, cash = some c → 0 ≤ c) :
    ((execute_monthly_withdrawal w sh p debt cash cb).2.1 = none ↔
      cash = none) ∧
    (∀ c, (execute_monthly_withdrawal w sh p debt cash cb).2.1 = some c →
      0 ≤ c) ∧
    0 ≤ (execute_monthly_withdrawal w sh p debt cash cb).1 ∧
    0 ≤ (execute_monthly_withdrawal w sh p debt cash cb).2.2.1 := by
  have hsell : 0 ≤ (calculate_shares_to_sell_for_withdrawal w debt cash p).1 := by
    unfold calculate_shares_to_sell_for_withdrawal
    dsimp only
    split
    · rename_i hp0
      exact div_nonneg (le_max_left _ _) (le_of_lt hp0)
    · exact le_refl 0
  have hoc : 0 ≤ orZero cash := by
    cases cash with
    | none => exact le_refl 0
    | some c => exact hc c rfl
  have hsold : 0 ≤ min (calculate_shares_to_sell_for_withdrawal w debt cash p).1 sh :=
    le_min hsell hs
  have hpool : 0 ≤ orZero cash +
      min (calculate_shares_to_sell_for_withdrawal w debt cash p).1 sh * p :=
    add_nonneg hoc (mul_nonneg hsold hp)
  unfold execute_monthly_withdrawal
  dsimp only
  refine ⟨?_, ?_, sub_nonneg.2 (min_le_right _ _),
    sub_nonneg.2 (min_le_right _ _)⟩
  · cases cash with
    | none => simp
    | some c => simp
  · cases cash with
    | none => simp
    | some c =>
      intro c' hc'
      simp only [Option.some.injEq] at hc'
      rw [← hc']
      have h1 : 0 ≤ orZero (some c) +
          min (calculate_shares_to_sell_for_withdrawal w debt (some c) p).1 sh * p -
          min (orZero (some c) +
            min (calculate_shares_to_sell_for_withdrawal w debt (some c) p).1 sh * p)
            debt := sub_nonneg.2 (min_le_left _ _)
      have h2 := min_le_left (orZero (some c) +
          min (calculate_shares_to_sell_for_withdrawal w debt (some c) p).1 sh * p -
          min (orZero (some c) +
            min (calculate_shares_to_sell_for_withdrawal w debt (some c) p).1 sh * p)
            debt) w
      linarith

theorem process_dividend_inv (sh dps p : ℚ) (rv : Bool) (cash : Option ℚ)
    (cb : ℚ) (hs : 0 ≤ sh) (hdps : 0 ≤ dps)
    (hc : ∀ c, cash = some c → 0 ≤ c) :
    ((process_dividend sh dps p rv cash cb).2.2.1 = none ↔ cash = none) ∧
    (∀ c, (process_dividend sh dps p rv cash cb).2.2.1 = some c → 0 ≤ c) ∧
    0 ≤ (process_dividend sh dps p rv cash cb).1 := by
  have hinc : 0 ≤ calculate_dividend_income sh dps := mul_nonneg hs hdps
  unfold process_dividend
  dsimp only
  split
  · exact ⟨by constructor <;> (intro h; exact h), hc,
      calculate_shares_bought_nonneg _ _ hinc⟩
  · cases cash with
    | none => exact ⟨by simp, by simp, le_refl 0⟩
    | some c =>
      refine ⟨by simp, ?_, le_refl 0⟩
      intro c' hc'
      simp only [Option.some.injEq] at hc'
      rw [← hc']
      exact add_nonneg (hc c rfl) hinc


theorem step_margin_call_state_inv (cfg : SimConfig) (st : SimState)
    (d : DayData) (h : StateInv cfg st) :
    StateInv cfg (step_margin_call cfg st d) := by
  obtain ⟨hm1, hm2, hm3, hm4⟩ := execute_margin_call_inv st.total_shares
    d.price st.borrowed_amount cfg.maintenance_margin st.current_balance
    h.shares_nonneg h.debt_nonneg h.balance_nonneg
  unfold step_margin_call
  dsimp only
  repeat' split
  · exact ⟨hm3, hm4, Iff.trans hm1 h.balance_mode, hm2, h.balances_ok⟩
  · exact ⟨hm3, hm4, Iff.trans hm1 h.balance_mode, hm2, h.balances_ok⟩
  · exact h

theorem step_withdrawal_threshold_state_inv (cfg : SimConfig) (st : SimState)
    (d : DayData) (hp : 0 ≤ d.price) (h : StateInv cfg st) :
    StateInv cfg (step_withdrawal_threshold cfg st d) := by
  obtain ⟨hw1, hw2, hw3, hw4⟩ := execute_monthly_withdrawal_inv 0
    st.total_shares d.price st.borrowed_amount st.current_balance
    st.total_cost_basis (le_refl 0) h.shares_nonneg hp h.debt_nonneg
    h.balance_nonneg
  unfold step_withdrawal_threshold
  dsimp only
  repeat' split
  · exact h
  · exact h
  · exact ⟨hw3, hw4, Iff.trans hw1 h.balance_mode, hw2, h.balances_ok⟩
  · exact ⟨hw3, hw4, Iff.trans hw1 h.balance_mode, hw2, h.balances_ok⟩
  · exact ⟨h.shares_nonneg, h.debt_nonneg, h.balance_mode, h.balance_nonneg,
      h.balances_ok⟩
  · exact h

theorem step_monthly_withdrawal_state_inv (cfg : SimConfig) (st : SimState)
    (d : DayData) (hv : ValidConfig cfg) (hp : 0 ≤ d.price)
    (h : StateInv cfg st) :
    StateInv cfg (step_monthly_withdrawal cfg st d) := by
  rcases hw : cfg.monthly_withdrawal_amount with _ | w
  · unfold step_monthly_withdrawal
    rw [hw]
    exact h
  · obtain ⟨hw1, hw2, hw3, hw4⟩ := execute_monthly_withdrawal_inv w
      st.total_shares d.price st.borrowed_amount st.current_balance
      st.total_cost_basis (hv.withdrawal_nonneg w hw) h.shares_nonneg hp
      h.debt_nonneg h.balance_nonneg
    unfold step_monthly_withdrawal
    rw [hw]
    dsimp only
    repeat' split
    all_goals first
      | exact h
      | exact ⟨hw3, hw4, Iff.trans hw1 h.balance_mode, hw2, h.balances_ok⟩

theorem step_dividend_state_inv (cfg : SimConfig) (st : SimState)
    (d : DayData) (hv : ValidConfig cfg) (h : StateInv cfg st) :
    StateInv cfg (step_dividend cfg st d) := by
  rcases hdv : cfg.dividends d.date with _ | dv
  · unfold step_dividend
    rw [hdv]
    exact h
  · obtain ⟨hd1, hd2, hd3⟩ := process_dividend_inv st.total_shares dv d.price
      (cfg.reinvest && !st.withdrawal_mode_active) st.current_balance
      st.total_cost_basis h.shares_nonneg (hv.dividends_nonneg d.date dv hdv)
      h.balance_nonneg
    unfold step_dividend
    rw [hdv]
    dsimp only
    repeat' split
    all_goals first
      | exact h
      | exact ⟨add_nonneg h.shares_nonneg hd3, h.debt_nonneg,
          Iff.trans hd1 h.balance_mode, hd2, h.balances_ok⟩

theorem step_interest_state_inv (cfg : SimConfig) (st : SimState)
    (d : DayData) (h : StateInv cfg st) :
    StateInv cfg (step_interest cfg st d) := by
  obtain ⟨hi1, hi2, hi3⟩ := process_interest_charge_inv st.borrowed_amount
    (cfg.fed_funds_rate d.date) st.current_balance h.debt_nonneg
    h.balance_nonneg
  unfold step_interest
  dsimp only
  repeat' split
  all_goals first
  | exact h
  | exact ⟨h.shares_nonneg, hi3, Iff.trans hi1 h.balance_mode, hi2,
      h.balances_ok⟩
  | exact ⟨h.shares_nonneg, h.debt_nonneg, h.balance_mode, h.balance_nonneg,
      h.balances_ok⟩
  | (rename_i hcond
     dsimp only at hcond
     exact absurd rfl hcond.1)


theorem step_purchase_exec_state_inv (cfg : SimConfig) (st : SimState)
    (d : DayData) (lim : Option (ℕ × ℕ)) (amt : ℚ) (hamt : 0 ≤ amt)
    (h : StateInv cfg st) :
    StateInv cfg (step_purchase_exec cfg st d lim amt) := by
  obtain ⟨hp1, hp2, hp3, hp4⟩ := execute_purchase_inv amt d.price
    st.current_balance st.borrowed_amount cfg.margin_ratio st.total_shares
    st.available_principal hamt h.debt_nonneg
  unfold step_purchase_exec
  dsimp only
  repeat' split
  all_goals first
  | exact ⟨h.shares_nonneg, hp4, Iff.trans hp1 h.balance_mode, hp2,
      h.balances_ok⟩
  | exact ⟨add_nonneg h.shares_nonneg hp3, hp4, Iff.trans hp1 h.balance_mode,
      hp2, h.balances_ok⟩

theorem step_purchase_state_inv (cfg : SimConfig) (st : SimState)
    (d : DayData) (hv : ValidConfig cfg) (h : StateInv cfg st) :
    StateInv cfg (step_purchase cfg st d) := by
  unfold step_purchase
  dsimp only
  split
  · exact ⟨h.shares_nonneg, h.debt_nonneg, h.balance_mode, h.balance_nonneg,
      h.balances_ok⟩
  · apply step_purchase_exec_state_inv cfg st d _ _ ?_ h
    split
    · refine add_nonneg ?_ hv.initial_nonneg
      split
      · exact hv.amount_nonneg
      · exact le_refl 0
    · split
      · exact hv.amount_nonneg
      · exact le_refl 0

theorem record_day_state_inv (cfg : SimConfig) (st : SimState) (d : DayData)
    (h : StateInv cfg st) : StateInv cfg (record_day st d) := by
  refine ⟨h.shares_nonneg, h.debt_nonneg, h.balance_mode, h.balance_nonneg, ?_⟩
  unfold record_day
  dsimp only
  intro v hv
  rcases List.mem_append.1 hv with h' | h'
  · exact h.balances_ok v h'
  · have : v = st.current_balance := List.mem_singleton.1 h'
    subst this
    exact ⟨h.balance_mode, h.balance_nonneg⟩

theorem record_insolvency_state_inv (cfg : SimConfig) (st : SimState)
    (d : DayData) (h : StateInv cfg st) :
    StateInv cfg (record_insolvency st d) := by
  refine ⟨h.shares_nonneg, h.debt_nonneg, h.balance_mode, h.balance_nonneg, ?_⟩
  unfold record_insolvency
  dsimp only
  intro v hv
  rcases List.mem_append.1 hv with h' | h'
  · exact h.balances_ok v h'
  · have : v = st.current_balance := List.mem_singleton.1 h'
    subst this
    exact ⟨h.balance_mode, h.balance_nonneg⟩

theorem step_day_state_inv (cfg : SimConfig) (st : SimState) (d : DayData)
    (hv : ValidConfig cfg) (hp : 0 ≤ d.price) (h : StateInv cfg st) :
    StateInv cfg (step_day cfg st d) := by
  unfold step_day
  dsimp only
  split
  · exact record_insolvency_state_inv cfg _ d
      (step_margin_call_state_inv cfg st d h)
  · exact record_day_state_inv cfg _ d
      (step_purchase_state_inv cfg _ d hv
        (step_interest_state_inv cfg _ d
          (step_dividend_state_inv cfg _ d hv
            (step_monthly_withdrawal_state_inv cfg _ d hv hp
              (step_withdrawal_threshold_state_inv cfg _ d hp
                (step_margin_call_state_inv cfg st d h))))))

theorem run_days_state_inv (cfg : SimConfig) :
    ∀ (days : List DayData) (st : SimState), ValidConfig cfg →
      ValidDays days → StateInv cfg st →
      StateInv cfg (run_days cfg st days) := by
  intro days
  induction days with
  | nil =>
    intro st _ _ h
    exact h
  | cons d rest ih =>
    intro st hv hdays h
    have hp : 0 ≤ d.price := hdays d (List.mem_cons_self d rest)
    have hrest : ValidDays rest := fun x hx =>
      hdays x (List.mem_cons_of_mem d hx)
    have h1 := step_day_state_inv cfg st d hv hp h
    unfold run_days
    dsimp only
    split
    · exact h1
    · exact ih (step_day cfg st d) hv hrest h1

theorem initial_state_state_inv (cfg : SimConfig) (hv : ValidConfig cfg) :
    StateInv cfg (initial_state cfg) := by
  refine ⟨le_refl 0, le_refl 0, Iff.rfl, ?_, ?_⟩
  · exact fun c hc => hv.balance_nonneg c hc
  · intro v hv'
    exact absurd hv' (List.not_mem_nil v)

theorem some_of_mode {o : Option ℚ} {b : ℚ}
    (hmode : o = none ↔ (some b : Option ℚ) = none)
    (hnn : ∀ c, o = some c → 0 ≤ c) : ∃ c, o = some c ∧ 0 ≤ c := by
  cases o with
  | none => exact absurd (hmode.1 rfl) (by simp)
  | some c => exact ⟨c, rfl, hnn c rfl⟩

/-- C5.  In finite-cash mode the tracked cash balance is non-negative after
every daily step of every run (every per-day `balance` row and the final
balance), and each of the purchase, interest, margin-call, withdrawal and
dividend handlers maps a non-negative cash balance to a non-negative cash
balance. -/
theorem claim_C5_finite_cash_nonneg (cfg : SimConfig) (days : List DayData)
    (b : ℚ) (hv : ValidConfig cfg) (hdays : ValidDays days)
    (hb : cfg.account_balance = some b) :
    (∀ v ∈ (calculate_dca_core cfg days).balance_values,
      ∃ c, v = some c ∧ 0 ≤ c) ∧
    (∃ c, (calculate_dca_core cfg days).current_balance = some c ∧ 0 ≤ c) ∧
    (∀ amt p c debt mr sh ap : ℚ, 0 ≤ amt → 0 ≤ debt → 0 ≤ c →
      ∃ c', (execute_purchase amt p (some c) debt mr sh ap).2.2.2.2.2.1 =
        some c' ∧ 0 ≤ c') ∧
    (∀ debt rate c : ℚ, 0 ≤ debt → 0 ≤ c →
      ∃ c', (process_interest_charge debt rate (some c)).1 = some c' ∧
        0 ≤ c') ∧
    (∀ sh p debt mm c : ℚ, 0 ≤ sh → 0 ≤ debt → 0 ≤ c →
      ∃ c', (execute_margin_call sh p debt (some c) mm).2.1 = some c' ∧
        0 ≤ c') ∧
    (∀ w sh p debt c cb : ℚ, 0 ≤ w → 0 ≤ sh → 0 ≤ p → 0 ≤ debt → 0 ≤ c →
      ∃ c', (execute_monthly_withdrawal w sh p debt (some c) cb).2.1 =
        some c' ∧ 0 ≤ c') ∧
    (∀ (sh dps p cb c : ℚ) (rv : Bool), 0 ≤ sh → 0 ≤ dps → 0 ≤ c →
      ∃ c', (process_dividend sh dps p rv (some c) cb).2.2.1 = some c' ∧
        0 ≤ c') := by
  have hrun : StateInv cfg (calculate_dca_core cfg days) :=
    run_days_state_inv cfg days (initial_state cfg) hv hdays
      (initial_state_state_inv cfg hv)
  refine ⟨?_, ?_, ?_, ?_, ?_, ?_, ?_⟩
  · intro v hvmem
    obtain ⟨hmode, hnn⟩ := hrun.balances_ok v hvmem
    exact some_of_mode (hb ▸ hmode) hnn
  · exact some_of_mode (hb ▸ hrun.balance_mode) hrun.balance_nonneg
  · intro amt p c debt mr sh ap hamt hd hc
    obtain ⟨h1, h2, -, -⟩ := execute_purchase_inv amt p (some c) debt mr sh ap
      hamt hd
    exact some_of_mode (o := (execute_purchase amt p (some c) debt mr sh
      ap).2.2.2.2.2.1) (b := c) (by simpa using h1) h2
  · intro debt rate c hd hc
    obtain ⟨h1, h2, -⟩ := process_interest_charge_inv debt rate (some c) hd
      (fun c' hc' => by
        simp only [Option.some.injEq] at hc'
        rw [← hc']
        exact hc)
    exact some_of_mode (o := (process_interest_charge debt rate (some c)).1)
      (b := c) (by simpa using h1) h2
  · intro sh p debt mm c hs hd hc
    obtain ⟨h1, h2, -, -⟩ := execute_margin_call_inv sh p debt mm (some c) hs
      hd (fun c' hc' => by
        simp only [Option.some.injEq] at hc'
        rw [← hc']
        exact hc)
    exact some_of_mode (o := (execute_margin_call sh p debt (some c) mm).2.1)
      (b := c) (by simpa using h1) h2
  · intro w sh p debt c cb hw hs hp hd hc
    obtain ⟨h1, h2, -, -⟩ := execute_monthly_withdrawal_inv w sh p debt
      (some c) cb hw hs hp hd (fun c' hc' => by
        simp only [Option.some.injEq] at hc'
        rw [← hc']
        exact hc)
    exact some_of_mode
      (o := (execute_monthly_withdrawal w sh p debt (some c) cb).2.1)
      (b := c) (by simpa using h1) h2
  · intro sh dps p cb c rv hs hdps hc
    obtain ⟨h1, h2, -⟩ := process_dividend_inv sh dps p rv (some c) cb hs hdps
      (fun c' hc' => by
        simp only [Option.some.injEq] at hc'
        rw [← hc']
        exact hc)
    exact some_of_mode (o := (process_dividend sh dps p rv (some c) cb).2.2.1)
      (b := c) (by simpa using h1) h2


theorem execute_monthly_withdrawal_debt_le (w sh p debt : ℚ)
    (cash : Option ℚ) (cb : ℚ) (hs : 0 ≤ sh) (hp : 0 ≤ p) (hd : 0 ≤ debt)
    (hc : ∀ c, cash = some c → 0 ≤ c) :
    (execute_monthly_withdrawal w sh p debt cash cb).2.2.1 ≤ debt := by
  have hsell : 0 ≤ (calculate_shares_to_sell_for_withdrawal w debt cash p).1 := by
    unfold calculate_shares_to_sell_for_withdrawal
    dsimp only
    split
    · rename_i hp0
      exact div_nonneg (le_max_left _ _) (le_of_lt hp0)
    · exact le_refl 0
  have hoc : 0 ≤ orZero cash := by
    cases cash with
    | none => exact le_refl 0
    | some c => exact hc c rfl
  have hpool : 0 ≤ orZero cash +
      min (calculate_shares_to_sell_for_withdrawal w debt cash p).1 sh * p :=
    add_nonneg hoc (mul_nonneg (le_min hsell hs) hp)
  unfold execute_monthly_withdrawal
  dsimp only
  exact sub_le_self debt (le_min hpool hd)

theorem step_margin_call_no_margin (cfg : SimConfig) (st : SimState)
    (d : DayData) (hmr : cfg.margin_ratio = 1) :
    step_margin_call cfg st d = st := by
  unfold step_margin_call
  rw [if_neg]
  rintro ⟨h1, -⟩
  rw [hmr] at h1
  exact lt_irrefl 1 h1

theorem step_withdrawal_threshold_nm (cfg : SimConfig) (st : SimState)
    (d : DayData) (h : NoMarginInv st) :
    NoMarginInv (step_withdrawal_threshold cfg st d) := by
  unfold step_withdrawal_threshold
  dsimp only
  repeat' split
  all_goals first
  | exact h
  | exact ⟨h.debt_zero, h.interest_zero, h.calls_zero, h.borrowed_all,
      h.interest_all⟩
  | exact absurd ‹st.borrowed_amount > 0›
      (by rw [h.debt_zero]; exact lt_irrefl 0)

theorem step_monthly_withdrawal_nm (cfg : SimConfig) (st : SimState)
    (d : DayData) (hv : ValidConfig cfg) (hp : 0 ≤ d.price)
    (hinv : StateInv cfg st) (h : NoMarginInv st) :
    NoMarginInv (step_monthly_withdrawal cfg st d) := by
  rcases hw : cfg.monthly_withdrawal_amount with _ | w
  · unfold step_monthly_withdrawal
    rw [hw]
    exact h
  · have hle := execute_monthly_withdrawal_debt_le w st.total_shares d.price
      st.borrowed_amount st.current_balance st.total_cost_basis
      hinv.shares_nonneg hp hinv.debt_nonneg hinv.balance_nonneg
    have hge := (execute_monthly_withdrawal_inv w st.total_shares d.price
      st.borrowed_amount st.current_balance st.total_cost_basis
      (hv.withdrawal_nonneg w hw) hinv.shares_nonneg hp hinv.debt_nonneg
      hinv.balance_nonneg).2.2.2
    have hzero : (execute_monthly_withdrawal w st.total_shares d.price
        st.borrowed_amount st.current_balance st.total_cost_basis).2.2.1 = 0 :=
      le_antisymm (le_of_le_of_eq hle h.debt_zero) hge
    unfold step_monthly_withdrawal
    rw [hw]
    dsimp only
    repeat' split
    all_goals first
    | exact h
    | exact ⟨hzero, h.interest_zero, h.calls_zero, h.borrowed_all,
        h.interest_all⟩

theorem step_dividend_nm (cfg : SimConfig) (st : SimState) (d : DayData)
    (h : NoMarginInv st) : NoMarginInv (step_dividend cfg st d) := by
  unfold step_dividend
  dsimp only
  repeat' split
  all_goals first
  | exact h
  | exact ⟨h.debt_zero, h.interest_zero, h.calls_zero, h.borrowed_all,
      h.interest_all⟩

theorem step_interest_nm (cfg : SimConfig) (st : SimState) (d : DayData)
    (h : NoMarginInv st) : NoMarginInv (step_interest cfg st d) := by
  unfold step_interest
  dsimp only
  repeat' split
  all_goals first
  | exact h
  | exact ⟨h.debt_zero, h.interest_zero, h.calls_zero, h.borrowed_all,
      h.interest_all⟩
  | exact absurd ‹st.borrowed_amount > 0›
      (by rw [h.debt_zero]; exact lt_irrefl 0)
  | (rename_i hcond
     try dsimp only at hcond
     first
     | exact absurd rfl hcond.1
     | exact absurd hcond.2 (by rw [h.debt_zero]; exact lt_irrefl 0))

theorem execute_purchase_amounts_nm (amt bal debt mr sh p : ℚ)
    (hmr : mr = 1) :
    (execute_purchase_amounts amt bal debt mr sh p).2.2 = 0 := by
  unfold execute_purchase_amounts
  rw [if_neg (by rw [hmr]; exact lt_irrefl 1)]
  split <;> rfl

theorem execute_purchase_nm (amt p : ℚ) (cash : Option ℚ)
    (debt mr sh ap : ℚ) (hmr : mr = 1) :
    (execute_purchase amt p cash debt mr sh ap).2.2.2.2.2.2 = debt := by
  unfold execute_purchase
  cases cash with
  | none => rfl
  | some bal =>
    dsimp only
    rw [execute_purchase_amounts_nm amt bal debt mr sh p hmr, add_zero]

theorem step_purchase_nm (cfg : SimConfig) (st : SimState) (d : DayData)
    (hmr : cfg.margin_ratio = 1) (h : NoMarginInv st) :
    NoMarginInv (step_purchase cfg st d) := by
  unfold step_purchase step_purchase_exec
  dsimp only
  repeat' split
  all_goals first
  | exact h
  | exact ⟨h.debt_zero, h.interest_zero, h.calls_zero, h.borrowed_all,
      h.interest_all⟩
  | exact ⟨(execute_purchase_nm _ _ _ _ _ _ _ hmr).trans h.debt_zero,
      h.interest_zero, h.calls_zero, h.borrowed_all, h.interest_all⟩

theorem record_day_nm (st : SimState) (d : DayData) (h : NoMarginInv st) :
    NoMarginInv (record_day st d) := by
  unfold record_day
  dsimp only
  refine ⟨h.debt_zero, h.interest_zero, h.calls_zero, ?_, ?_⟩
  · intro x hx
    rcases List.mem_append.1 hx with h' | h'
    · exact h.borrowed_all x h'
    · rw [List.mem_singleton.1 h']
      exact h.debt_zero
  · intro x hx
    rcases List.mem_append.1 hx with h' | h'
    · exact h.interest_all x h'
    · rw [List.mem_singleton.1 h']
      exact h.interest_zero

theorem record_insolvency_nm (st : SimState) (d : DayData)
    (h : NoMarginInv st) : NoMarginInv (record_insolvency st d) := by
  unfold record_insolvency
  dsimp only
  refine ⟨h.debt_zero, h.interest_zero, h.calls_zero, ?_, ?_⟩
  · intro x hx
    rcases List.mem_append.1 hx with h' | h'
    · exact h.borrowed_all x h'
    · rw [List.mem_singleton.1 h']
      exact h.debt_zero
  · intro x hx
    rcases List.mem_append.1 hx with h' | h'
    · exact h.interest_all x h'
    · rw [List.mem_singleton.1 h']
      exact h.interest_zero

theorem step_day_nm (cfg : SimConfig) (st : SimState) (d : DayData)
    (hmr : cfg.margin_ratio = 1) (hv : ValidConfig cfg) (hp : 0 ≤ d.price)
    (hinv : StateInv cfg st) (h : NoMarginInv st) :
    NoMarginInv (step_day cfg st d) := by
  unfold step_day
  dsimp only
  rw [step_margin_call_no_margin cfg st d hmr]
  split
  · exact record_insolvency_nm st d h
  · have i3 := step_withdrawal_threshold_state_inv cfg st d hp hinv
    have n3 := step_withdrawal_threshold_nm cfg st d h
    have n4 := step_monthly_withdrawal_nm cfg _ d hv hp i3 n3
    have n5 := step_dividend_nm cfg _ d n4
    have n6 := step_interest_nm cfg _ d n5
    have n7 := step_purchase_nm cfg _ d hmr n6
    exact record_day_nm _ d n7

theorem run_days_nm (cfg : SimConfig) (hmr : cfg.margin_ratio = 1) :
    ∀ (days : List DayData) (st : SimState), ValidConfig cfg →
      ValidDays days → StateInv cfg st → NoMarginInv st →
      NoMarginInv (run_days cfg st days) := by
  intro days
  induction days with
  | nil =>
    intro st _ _ _ h
    exact h
  | cons d rest ih =>
    intro st hv hdays hinv h
    have hp : 0 ≤ d.price := hdays d (List.mem_cons_self d rest)
    have hrest : ValidDays rest := fun x hx =>
      hdays x (List.mem_cons_of_mem d hx)
    have h1 := step_day_nm cfg st d hmr hv hp hinv h
    have hinv1 := step_day_state_inv cfg st d hv hp hinv
    unfold run_days
    dsimp only
    split
    · exact h1
    · exact ih (step_day cfg st d) hv hrest hinv1 h1

/-- C8.  A run configured with `margin_ratio = 1.0` never borrows: on every
simulated day the recorded debt is `0`, the cumulative interest paid is `0`,
and no margin call ever triggers. -/
theorem claim_C8_no_margin_no_debt (cfg : SimConfig) (days : List DayData)
    (hv : ValidConfig cfg) (hdays : ValidDays days)
    (hmr : cfg.margin_ratio = 1) :
    (calculate_dca_core cfg days).borrowed_amount = 0 ∧
    (calculate_dca_core cfg days).total_interest_paid = 0 ∧
    (calculate_dca_core cfg days).margin_calls_triggered = 0 ∧
    (∀ x ∈ (calculate_dca_core cfg days).borrowed_values, x = 0) ∧
    (∀ x ∈ (calculate_dca_core cfg days).interest_values, x = 0) := by
  have h0 : NoMarginInv (initial_state cfg) :=
    ⟨rfl, rfl, rfl, fun x hx => absurd hx (List.not_mem_nil x),
      fun x hx => absurd hx (List.not_mem_nil x)⟩
  have h := run_days_nm cfg hmr days (initial_state cfg) hv hdays
    (initial_state_state_inv cfg hv) h0
  exact ⟨h.debt_zero, h.interest_zero, h.calls_zero, h.borrowed_all,
    h.interest_all⟩


theorem wCfg_valid : ValidConfig wCfg := by
  refine ⟨le_refl 0, le_refl 0, ?_, ?_, ?_⟩
  · intro b hb
    have : (0 : ℚ) = b := by injection hb
    rw [← this]
  · intro w hw
    exact absurd hw (by simp [wCfg])
  · intro dt v hv
    exact absurd hv (by simp [wCfg])

theorem wCfgNoMargin_valid : ValidConfig wCfgNoMargin := by
  refine ⟨le_refl 0, le_refl 0, ?_, ?_, ?_⟩
  · intro b hb
    have : (0 : ℚ) = b := by injection hb
    rw [← this]
  · intro w hw
    exact absurd hw (by simp [wCfgNoMargin, wCfg])
  · intro dt v hv
    exact absurd hv (by simp [wCfgNoMargin, wCfg])

theorem wDays_valid : ValidDays [wDay] := by
  intro d hd
  rw [List.mem_singleton.1 hd]
  show (0 : ℚ) ≤ 1
  norm_num

/-- Witness for C1: a two-day series where the first day is already past the
first trading day and equity is negative terminates after one row. -/
theorem claim_C1_witness :
    wStInsolvent.first_day = false ∧
    check_insolvency
      ((step_margin_call wCfg wStInsolvent wDay).total_shares * wDay.price)
      (step_margin_call wCfg wStInsolvent wDay).current_balance
      (step_margin_call wCfg wStInsolvent wDay).borrowed_amount = true ∧
    (run_days wCfg wStInsolvent [wDay, wDay2]).insolvency_detected = true ∧
    run_days wCfg wStInsolvent [wDay, wDay2] =
      run_days wCfg wStInsolvent [wDay] := by
  have hmc : step_margin_call wCfg wStInsolvent wDay = wStInsolvent := by
    unfold step_margin_call
    rw [if_neg]
    rintro ⟨-, -, h3⟩
    exact lt_irrefl 0 h3
  have hfd : wStInsolvent.first_day = false := rfl
  have hins : check_insolvency
      ((step_margin_call wCfg wStInsolvent wDay).total_shares * wDay.price)
      (step_margin_call wCfg wStInsolvent wDay).current_balance
      (step_margin_call wCfg wStInsolvent wDay).borrowed_amount = true := by
    rw [hmc]
    simp only [check_insolvency, decide_eq_true_eq]
    show wStInsolvent.total_shares * wDay.price +
      safe_cash wStInsolvent.current_balance - wStInsolvent.borrowed_amount ≤ 0
    show (0 : ℚ) * 1 + safe_cash (some 0) - 5 ≤ 0
    norm_num [safe_cash]
  have h := claim_C1_insolvency_terminates wCfg wStInsolvent wDay [wDay2]
    hfd hins
  exact ⟨hfd, hins, h.2.1, h.1⟩

/-- Witness for C5 on a one-day run with finite cash `0`. -/
theorem claim_C5_witness :
    ValidConfig wCfg ∧ ValidDays [wDay] ∧ wCfg.account_balance = some 0 ∧
    (∀ v ∈ (calculate_dca_core wCfg [wDay]).balance_values,
      ∃ c, v = some c ∧ 0 ≤ c) := by
  refine ⟨wCfg_valid, wDays_valid, rfl, ?_⟩
  exact (claim_C5_finite_cash_nonneg wCfg [wDay] 0 wCfg_valid wDays_valid
    rfl).1

/-- Witness for C7: `20` shares at price `1` against debt `5` crossing the
threshold `10`. -/
theorem claim_C7_witness :
    wStThresh.withdrawal_mode_active = false ∧
    wCfgThresh.withdrawal_threshold = some 10 ∧
    0 < wStThresh.borrowed_amount ∧
    (step_withdrawal_threshold wCfgThresh wStThresh wDay).borrowed_amount =
      0 ∧
    (step_withdrawal_threshold wCfgThresh wStThresh
      wDay).withdrawal_mode_active = true := by
  have h := claim_C7_threshold_debt_payoff wCfgThresh wStThresh wDay 10
    rfl rfl (by norm_num)
    (show (0 : ℚ) < 5 by norm_num)
    (show (0 : ℚ) ≤ 1 by norm_num)
    (show (0 : ℚ) ≤ 20 by norm_num)
    (Or.inr ⟨0, rfl, le_refl 0⟩)
    (show (10 : ℚ) ≤ 20 * 1 + orZero (some 0) - 5 by norm_num [orZero])
  exact ⟨rfl, rfl, show (0 : ℚ) < 5 by norm_num, h.1, h.2.1⟩

/-- Witness for C8 on a one-day run without margin. -/
theorem claim_C8_witness :
    ValidConfig wCfgNoMargin ∧ wCfgNoMargin.margin_ratio = 1 ∧
    (calculate_dca_core wCfgNoMargin [wDay]).borrowed_amount = 0 ∧
    (∀ x ∈ (calculate_dca_core wCfgNoMargin [wDay]).borrowed_values,
      x = 0) := by
  have hdays : ValidDays [wDay] := wDays_valid
  have h := claim_C8_no_margin_no_debt wCfgNoMargin [wDay] wCfgNoMargin_valid
    hdays rfl
  exact ⟨wCfgNoMargin_valid, rfl, h.1, h.2.2.2.1⟩

end DCA
